import Mathlib

/-!
# abesh: verification development for the HTTP trigger

A shallow embedding of `capability/httpserver/httpserver.go` and of the helpers it
calls (`utility/finder.go`, `model/configmap.go`, `example/echo`, `example/expanic`),
of the integer accessors of `model/configmap.go`, and of the structured errors of
package `errors` as the specification describes them.  Of the Go standard library, the
functions the code calls are embedded as far as the statements depend on them: the
string functions, `strconv`, and the `ServeMux` of `net/http` with its redirects.

Conventions of the embedding:

* Go strings and byte slices are Lean `String`s, sequences of Unicode characters; the
  string functions of the Go standard library that the code calls are written over the
  list of characters.  A Go string that is not valid UTF-8 has no counterpart.
* The case mappings of Go package `unicode` outside ASCII are data of the Go toolchain;
  they are the parameter `t : CaseTables` of the functions that upper-case or lower-case
  a string, and the statements hold for every value of it.
* Go maps are association lists; a `range` loop over a map visits the list in order,
  so the iteration order of the map is whatever order the list has.
* A request handler is a function from the server, the route, the request and the
  behaviour of the environment during that request (`World`) to the list of effects
  the handler performs, in order.  Logging is not recorded.
* Time is counted in nanoseconds from the moment the handler reaches the dispatch step.
* The values of the Go integer types are mathematical integers; the size of `int` and
  `uint` in bits is the parameter `IntSize` of the functions that depend on it.
* Library functions whose result is not determined by the source files are parameters
  too: `ParseDuration` (`time.ParseDuration`) and `SplitHostPort` (`net.SplitHostPort`).
* The operator `==` of a type that satisfies `comparable` is the operation `equal` of the
  class `Comparable`; it can be false of a value and itself, and it can panic.
-/

namespace Abesh

/-! ## Go strings -/

/-- Go `unicode.IsSpace`: the characters `strings.TrimSpace` removes. -/
def isSpace (c : Char) : Bool :=
  let n := c.toNat
  n == 9 || n == 10 || n == 11 || n == 12 || n == 13 || n == 32 || n == 0x85 || n == 0xA0 ||
  n == 0x1680 || (0x2000 ≤ n && n ≤ 0x200A) || n == 0x2028 || n == 0x2029 ||
  n == 0x202F || n == 0x205F || n == 0x3000

/-- Go `strings.TrimSpace`: leading and trailing white space removed. -/
def TrimSpace (s : String) : String :=
  String.mk ((s.data.dropWhile isSpace).reverse.dropWhile isSpace).reverse

/-- The case mappings of Go package `unicode` for the characters above
`unicode.MaxASCII`: `upper r` is `unicode.To(unicode.UpperCase, r)` and `lower r` is
`unicode.To(unicode.LowerCase, r)`.  Their values are the tables of the Unicode version
the Go toolchain ships. -/
structure CaseTables where
  upper : Char → Char
  lower : Char → Char

/-- Go `unicode.ToUpper`: in ASCII the letters `a`-`z` are moved to `A`-`Z` and every other
character is left as it is; above ASCII the case table decides. -/
def unicodeToUpper (t : CaseTables) (r : Char) : Char :=
  if r.toNat ≤ 0x7F then r.toUpper else t.upper r

/-- Go `unicode.ToLower`: in ASCII the letters `A`-`Z` are moved to `a`-`z` and every other
character is left as it is; above ASCII the case table decides. -/
def unicodeToLower (t : CaseTables) (r : Char) : Char :=
  if r.toNat ≤ 0x7F then r.toLower else t.lower r

/-- Go `strings.ToUpper`: every character mapped with `unicode.ToUpper`. -/
def ToUpper (t : CaseTables) (s : String) : String :=
  String.mk (s.data.map (unicodeToUpper t))

/-- Go `strings.ToLower`: every character mapped with `unicode.ToLower`. -/
def ToLower (t : CaseTables) (s : String) : String :=
  String.mk (s.data.map (unicodeToLower t))

/-- Case tables that leave every character above ASCII as it is. -/
def asciiOnly : CaseTables := { upper := id, lower := id }

/-- Case tables with the entries of Unicode for the long s (U+017F, upper case `S`) and
for the letter e with acute accent (U+00E9, upper case U+00C9), and no others. -/
def latinSample : CaseTables :=
  { upper := fun c =>
      if c.toNat = 0x17F then 'S' else if c.toNat = 0xE9 then Char.ofNat 0xC9 else c
    lower := fun c => if c.toNat = 0xC9 then Char.ofNat 0xE9 else c }

/-- Scan of `strings.Split` for a non-empty separator: `skip` counts the characters of a
separator occurrence still to be consumed, `cur` is the current piece, reversed. -/
def splitGo (sep : List Char) : List Char → Nat → List Char → List (List Char)
  | [], _, cur => [cur.reverse]
  | _ :: cs, skip + 1, cur => splitGo sep cs skip cur
  | c :: cs, 0, cur =>
      if sep.isPrefixOf (c :: cs) then cur.reverse :: splitGo sep cs (sep.length - 1) []
      else splitGo sep cs 0 (c :: cur)

/-- Go `strings.Split(s, sep)`: the pieces of `s` between the occurrences of `sep`; with an
empty separator, the characters of `s`. -/
def Split (s sep : String) : List String :=
  if sep.data = [] then s.data.map (fun c => String.mk [c])
  else (splitGo sep.data s.data 0 []).map String.mk

/-- Lexicographic order on character lists, the order of Go string comparison. -/
def leChars : List Char → List Char → Bool
  | [], _ => true
  | _ :: _, [] => false
  | a :: as, b :: bs =>
      if a.toNat < b.toNat then true
      else if b.toNat < a.toNat then false
      else leChars as bs

/-- Go `s1 <= s2` on strings. -/
def strLE (a b : String) : Prop := leChars a.data b.data = true

instance strLE.decidable : DecidableRel strLE :=
  fun a b => inferInstanceAs (Decidable (leChars a.data b.data = true))

/-- Go `sort.Strings`: the list in increasing order. -/
def sortStrings (l : List String) : List String :=
  List.insertionSort strLE l

/-- Go `fmt.Sprintf("%d", n)` for a non-negative integer. -/
def fmtD (n : Nat) : String := toString n

/-! ## Go errors -/

/-- Go error values.  `DeadlineExceeded` and `Canceled` are the two sentinels of package
`context`; every other error is a value distinct from both, whatever its text and
whatever it wraps. -/
inductive GoError where
  | DeadlineExceeded
  | Canceled
  | errorString (text : String)
  | wrapError (text : String) (cause : GoError)
  deriving DecidableEq, Repr

/-- The method `Error()`. -/
def GoError.Error : GoError → String
  | .DeadlineExceeded => "context deadline exceeded"
  | .Canceled => "context canceled"
  | .errorString text => text
  | .wrapError text _ => text

/-- What a Go call yields when it does not return a value: an error result or a panic. -/
inductive Fault where
  | error (e : GoError)
  | panic (v : String)
  deriving DecidableEq, Repr

/-! ## utility -/

/-- Function `utility.IsIn`: linear scan of the list. -/
def IsIn : List String → String → Bool
  | [], _ => false
  | v :: rest, value => if v == value then true else IsIn rest value

/-- A Go `map[string]string`. -/
abbrev GoMap := List (String × String)

/-- Map read `m[k]` with the comma-ok flag. -/
def GoMap.get? (m : GoMap) (k : String) : Option String :=
  m.lookup k

/-- Map write `m[k] = v`. -/
def GoMap.set : GoMap → String → String → GoMap
  | [], k, v => [(k, v)]
  | (k0, v0) :: rest, k, v =>
      if k0 == k then (k0, v) :: rest else (k0, v0) :: GoMap.set rest k v

/-- Modelled from the spec: `utility.GetValue` is called by the handler but is not among
the source files; the input Event's content type is the value stored under the key,
with the given default when the key is absent. -/
def GetValue (m : GoMap) (key defaultValue : String) : String :=
  match m.get? key with
  | some v => v
  | none => defaultValue

/-! ## model -/

/-- The Go type `string`, under a name that the accessors of `ConfigMap` do not shadow. -/
abbrev GoString := String

/-- The Go type `bool`, under a name that the accessors of `ConfigMap` do not shadow. -/
abbrev GoBool := Bool

/-- Type `model.ConfigMap`. -/
abbrev ConfigMap := List (GoString × GoString)

/-- Method `ConfigMap.String`. -/
def ConfigMap.String (v : ConfigMap) (key defaultValue : GoString) : GoString :=
  match v.lookup key with
  | some o => o
  | none => defaultValue

/-- Go `strconv.ParseBool`. -/
def ParseBool (str : String) : Option Bool :=
  if str ∈ ["1", "t", "T", "TRUE", "true", "True"] then some true
  else if str ∈ ["0", "f", "F", "FALSE", "false", "False"] then some false
  else none

/-- Method `ConfigMap.Bool`. -/
def ConfigMap.Bool (v : ConfigMap) (key : GoString) (defaultValue : GoBool) : GoBool :=
  match v.lookup key with
  | some o =>
      match ParseBool o with
      | some val => val
      | none => defaultValue
  | none => defaultValue

/-- Method `ConfigMap.Duration`; `ParseDuration` stands for Go `time.ParseDuration`, a duration
being a number of nanoseconds. -/
def ConfigMap.Duration (ParseDuration : GoString → Option Int) (v : ConfigMap)
    (key : GoString) (defaultValue : Int) : Int :=
  match v.lookup key with
  | some o =>
      match ParseDuration o with
      | some val => val
      | none => defaultValue
  | none => defaultValue

/-- Type `model.Metadata`, with the fields the trigger and the example services use.
`StatusCode` is a `uint32`. -/
structure Metadata where
  Method : String := ""
  Path : String := ""
  Headers : GoMap := []
  Query : GoMap := []
  ContractIdList : List String := []
  StatusCode : Nat := 0
  Status : String := ""
  deriving DecidableEq, Repr

/-- Type `model.Event`; `Metadata` is a pointer and may be nil. -/
structure Event where
  Metadata : Option Metadata
  TypeUrl : String
  Value : String
  deriving DecidableEq, Repr

/-- An `http.Request` as the handlers and the mux read it: method, `URL.Path`,
`URL.EscapedPath()`, the header map and `URL.Query()`, both in the order the `range`
loops visit them, and `Host`, `URL.Host`, `URL.RawQuery` and `RequestURI`. -/
structure Request where
  Method : String
  Path : String
  EscapedPath : String
  Header : List (String × List String)
  Query : List (String × List String)
  Host : String := ""
  URLHost : String := ""
  RawQuery : String := ""
  RequestURI : String := ""

/-- Go `Header.Get` for a key that is already in canonical form: the first value stored
under the key, the empty string when there is none. -/
def Request.HeaderGet (r : Request) (key : String) : String :=
  match r.Header.lookup key with
  | some (v :: _) => v
  | _ => ""

/-! ## Capabilities -/

/-- What one call of a Service's `Serve` does: it returns an event and an error, it
panics, or it does not return. -/
inductive ServeOutcome where
  | returns (event : Option Event) (err : Option GoError)
  | panics (v : String)
  | blocks

/-- An `iface.IService`: its `ContractId` and the behaviour of `Serve` on an input event. -/
structure Service where
  ContractId : String
  Serve : Event → ServeOutcome

/-- An `iface.IAuthorizer`: the predicate `IsAuthorized(expression, metadata)`. -/
structure Authorizer where
  IsAuthorized : String → Metadata → Bool

/-- An `iface.IEventTransmitter`, identified by its contract id. -/
structure EventTransmitter where
  ContractId : String
  deriving DecidableEq, Repr

/-- Type `EventResponse`: what the Service task puts on the result channel. -/
structure EventResponse where
  Error : Option GoError
  Event : Option Event
  deriving DecidableEq, Repr

/-- The variables a `requestHandler` closure of `AddService` captures. -/
structure Route where
  authorizer : Option Authorizer
  authorizerExpression : String
  methodList : List String
  service : Service

/-- The handlers the trigger registers on its mux. -/
inductive Handler where
  | default404
  | fileServer (staticPath staticDir : String)
  | health
  | metrics
  | requestHandler (route : Route)

/-- An `http.ServeMux`: the registered patterns with their handlers, in registration
order.  The patterns are those of the mux before Go 1.22: a literal path, or a literal
host followed by a path; a pattern that ends in a slash names a subtree. -/
structure ServeMux where
  entries : List (String × Handler)

/-- Methods `ServeMux.Handle` and `ServeMux.HandleFunc`: the registration panics on an empty
pattern and on a pattern that is already registered. -/
def ServeMux.Handle (mux : ServeMux) (pattern : String) (handler : Handler) :
    Except Fault ServeMux :=
  if pattern = "" then .error (.panic "http: invalid pattern")
  else if mux.entries.any (fun e => e.1 == pattern) then
    .error (.panic ("http: multiple registrations for " ++ pattern))
  else .ok { entries := mux.entries ++ [(pattern, handler)] }

/-- Selection among the subtree patterns: the longest one that is a leading part of the
path. -/
def longestMatch (path : String) :
    List (String × Handler) → Option (String × Handler) → Option (String × Handler)
  | [], best => best
  | e :: rest, best =>
      if e.1.data.getLast? == some '/' && e.1.data.isPrefixOf path.data then
        match best with
        | some b =>
            if b.1.length < e.1.length then longestMatch path rest (some e)
            else longestMatch path rest best
        | none => longestMatch path rest (some e)
      else longestMatch path rest best

/-- Method `ServeMux.match`: an exact match first, otherwise the longest subtree pattern
that is a leading part of the path. -/
def ServeMux.find (mux : ServeMux) (path : String) : Option (String × Handler) :=
  match mux.entries.find? (fun e => e.1 == path) with
  | some e => some e
  | none => longestMatch path mux.entries none

/-- Field `hosts` of `ServeMux`: whether a registered pattern does not start with a slash,
that is, names a host. -/
def ServeMux.hosts (mux : ServeMux) : Bool :=
  mux.entries.any (fun e => e.1.data.head? != some '/')

/-- Method `ServeMux.handler`: a pattern with the host takes precedence over a pattern
without; nothing stands for the not-found handler. -/
def ServeMux.handler (mux : ServeMux) (host path : String) : Option (String × Handler) :=
  match (if mux.hosts then mux.find (host ++ path) else none) with
  | some e => some e
  | none => mux.find path

/-- Method `ServeMux.shouldRedirectRLocked`: whether a request for `path` is redirected to
`path` followed by a slash; so it is when a handler is registered for the latter and
none for `path` itself. -/
def ServeMux.shouldRedirectRLocked (mux : ServeMux) (host path : String) : Bool :=
  let exist : String → Bool := fun c => mux.entries.any (fun e => e.1 == c)
  if exist path || exist (host ++ path) then false
  else if path.length = 0 then false
  else if exist (path ++ "/") then path.data.getLast? != some '/'
  else if exist (host ++ path ++ "/") then path.data.getLast? != some '/'
  else false

/-- The elements of a rooted path as Go `path.Clean` keeps them: empty elements and `.`
are dropped, `..` removes the element before it and is dropped at the root.  `out` holds
the elements kept so far, the last one first. -/
def cleanElements : List String → List String → List String
  | [], out => out.reverse
  | e :: rest, out =>
      if e = "" ∨ e = "." then cleanElements rest out
      else if e = ".." then cleanElements rest out.tail
      else cleanElements rest (e :: out)

/-- The elements of a path joined with slashes. -/
def joinElements : List String → String
  | [] => ""
  | [e] => e
  | e :: rest => e ++ "/" ++ joinElements rest

/-- Go `path.Clean` on a rooted path, the only kind `cleanPath` passes to it. -/
def pathClean (p : String) : String :=
  "/" ++ joinElements (cleanElements (Split p "/") [])

/-- Function `cleanPath` of `net/http`: the canonical form of a path, rooted, without
empty, `.` and `..` elements, and with the final slash of the path kept.  (Where Go
returns `p` itself on a fast path, `p` is `np` followed by a slash.) -/
def cleanPath (p : String) : String :=
  if p = "" then "/"
  else
    let p := if p.data.head? = some '/' then p else "/" ++ p
    let np := pathClean p
    if p.data.getLast? = some '/' ∧ np ≠ "/" then np ++ "/" else np

/-- Function `stripHostPort` of `net/http`: the host without a final `:port`;
`SplitHostPort` stands for Go `net.SplitHostPort`, giving the host part, or nothing on an
error. -/
def stripHostPort (SplitHostPort : String → Option String) (h : String) : String :=
  if !h.data.contains ':' then h
  else
    match SplitHostPort h with
    | some host => host
    | none => h

/-- What `ServeMux.Handler` returns for a request: a registered handler with its pattern,
the not-found handler, or a redirect handler for a path and query, with status 301. -/
inductive Selected where
  | registered (pattern : String) (handler : Handler)
  | notFound
  | redirect (path rawQuery : String)

/-- The handler `ServeMux.handler` found, or the not-found handler. -/
def Selected.ofMatch : Option (String × Handler) → Selected
  | some e => .registered e.1 e.2
  | none => .notFound

/-- Method `ServeMux.Handler`.  A CONNECT request is matched with its path as it is; for
every other request the port is taken off the host and the path is brought into
canonical form.  A path that names a registered subtree without its final slash is
redirected to the subtree, and a path that is not in canonical form is redirected to its
canonical form. -/
def ServeMux.Handler (SplitHostPort : String → Option String) (mux : ServeMux)
    (r : Request) : Selected :=
  if r.Method = "CONNECT" then
    if mux.shouldRedirectRLocked r.URLHost r.Path then .redirect (r.Path ++ "/") r.RawQuery
    else Selected.ofMatch (mux.handler r.Host r.Path)
  else
    let host := stripHostPort SplitHostPort r.Host
    let path := cleanPath r.Path
    if mux.shouldRedirectRLocked host path then .redirect (path ++ "/") r.RawQuery
    else if path ≠ r.Path then .redirect path r.RawQuery
    else Selected.ofMatch (mux.handler host r.Path)

/-! ## The HTTP trigger -/

/-- Type `HTTPServer`.  `mHttpServerMux` is nil until `Setup` has run; durations are in
nanoseconds. -/
structure HTTPServer where
  mHost : String := ""
  mPort : String := ""
  mCertFile : String := ""
  mKeyFile : String := ""
  mStaticDir : String := ""
  mStaticPath : String := ""
  mHealthPath : String := ""
  mDefault404HandlerEnabled : Bool := false
  mValues : ConfigMap := []
  mHttpServerMux : Option ServeMux := none
  mEventTransmitter : Option EventTransmitter := none
  mRequestTimeout : Int := 0
  mDefaultContentType : String := ""
  d401m : String := ""
  d403m : String := ""
  d404m : String := ""
  d405m : String := ""
  d408m : String := ""
  d409m : String := ""
  d499m : String := ""
  d500m : String := ""
  mIsMetricsEnabled : Bool := false
  mMetricPath : String := ""

/-- Method `HTTPServer.ContractId`. -/
def HTTPServer.ContractId (_h : HTTPServer) : String := "abesh:httpserver"

/-- Variable `ErrPathNotDefined`. -/
def ErrPathNotDefined : GoError := .errorString "path not defined"

/-- Variable `ErrMethodNotDefined`. -/
def ErrMethodNotDefined : GoError := .errorString "method not defined"

/-- Method `HTTPServer.buildDefaultMessage`: the template with both `%d` replaced by the code. -/
def HTTPServer.buildDefaultMessage (_h : HTTPServer) (code : Nat) : String :=
  "\n\t\t\x7b\n\t\t\t\"code\": \"SE_" ++ fmtD code ++
  "\",\n\t\t\t\"lang\": \"en\",\n\t\t\t\"message\": \"" ++ fmtD code ++
  " ERROR\",\n\t\t\t\"data\": \x7b\x7d\n\t\t\x7d\n\t"

/-- One second, in nanoseconds. -/
def Second : Int := 1000000000

/-- Method `HTTPServer.SetConfigMap`. -/
def HTTPServer.SetConfigMap (ParseDuration : String → Option Int) (h : HTTPServer)
    (values : ConfigMap) : HTTPServer :=
  { h with
    mValues := values
    mHost := ConfigMap.String values "host" "0.0.0.0"
    mPort := ConfigMap.String values "port" "8080"
    mCertFile := ConfigMap.String values "cert_file" ""
    mKeyFile := ConfigMap.String values "key_file" ""
    mStaticDir := ConfigMap.String values "static_dir" ""
    mStaticPath := ConfigMap.String values "static_path" "/static/"
    mHealthPath := ConfigMap.String values "health_path" ""
    mRequestTimeout := ConfigMap.Duration ParseDuration values "default_request_timeout" Second
    mDefault404HandlerEnabled := ConfigMap.Bool values "default_404_handler_enabled" true
    mDefaultContentType := ConfigMap.String values "default_content_type" "application/json"
    d401m := h.buildDefaultMessage 401
    d403m := h.buildDefaultMessage 403
    d404m := h.buildDefaultMessage 404
    d405m := h.buildDefaultMessage 405
    d408m := h.buildDefaultMessage 408
    d409m := h.buildDefaultMessage 409
    d499m := h.buildDefaultMessage 499
    d500m := h.buildDefaultMessage 500
    mIsMetricsEnabled := ConfigMap.Bool values "metrics_enabled" false
    mMetricPath := ConfigMap.String values "metric_path" "/metrics" }

/-- Method `HTTPServer.getMessage`. -/
def HTTPServer.getMessage (h : HTTPServer) (key defaultValue lang : String) : String :=
  let data := ConfigMap.String h.mValues (key ++ "_" ++ lang) ""
  if data.length = 0 then ConfigMap.String h.mValues key defaultValue else data

/-- Method `HTTPServer.getLanguage`. -/
def HTTPServer.getLanguage (_h : HTTPServer) (r : Request) : String :=
  let l := r.HeaderGet "Accept-Language"
  if l.length = 0 then "en" else l

/-- What a handler does to the outside, one constructor per kind of call.
* `IsAuthorized`: the Authorizer is evaluated.
* `ReadAll`: the request body is read.
* `TransmitInputEvent`, `TransmitOutputEvent`: the trigger's methods of that name are
  called; `transmitterInput`, `transmitterOutput`: the task they start calls the
  configured transmitter.
* `Serve`: the task running the Service's `Serve` is started.
* `chSend r blocked`: `r` is sent on the result channel, `blocked` telling whether the
  sender had to wait; `chRecv`: the handler receives from the result channel;
  `ctxDone`: the handler receives from `nCtx.Done()`.
* `responseStatusInc`, `panicCounterInc`: the counter with these labels is incremented.
* `HeaderAdd`, `WriteHeader`, `Write`: calls on the response writer.
* `cancel`: the deferred `cancel()` of the derived context.
* `recover`: the deferred barrier recovered a panic of the handler.
* `crash`: a panic in a task that has no barrier of its own ends the process.
* `external`: a handler of a library (file server, metrics, the not-found handler and
  the redirect handler of the mux) serves the request; of what it does, only the status
  code the two handlers of the mux write is recorded, after it. -/
inductive Effect where
  | IsAuthorized (expression : String) (metadata : Metadata)
  | ReadAll
  | TransmitInputEvent (contractId : String) (event : Event)
  | transmitterInput (contractId : String) (event : Event)
  | TransmitOutputEvent (contractId : String) (event : Option Event)
  | transmitterOutput (contractId : String) (event : Option Event)
  | Serve (input : Event)
  | chSend (r : EventResponse) (blocked : Bool)
  | chRecv (r : EventResponse)
  | ctxDone
  | responseStatusInc (path status : String)
  | panicCounterInc (contractid : String)
  | HeaderAdd (key value : String)
  | WriteHeader (statusCode : Nat)
  | Write (body : String)
  | cancel
  | recover (v : String)
  | crash (v : String)
  | external (handler : String)
  deriving DecidableEq, Repr

/-- Method `HTTPServer.TransmitInputEvent`. -/
def HTTPServer.TransmitInputEvent (h : HTTPServer) (contractId : String) (inputEvent : Event) :
    List Effect :=
  .TransmitInputEvent contractId inputEvent ::
    match h.mEventTransmitter with
    | some _ => [.transmitterInput contractId inputEvent]
    | none => []

/-- Method `HTTPServer.TransmitOutputEvent`. -/
def HTTPServer.TransmitOutputEvent (h : HTTPServer) (contractId : String)
    (outputEvent : Option Event) : List Effect :=
  .TransmitOutputEvent contractId outputEvent ::
    match h.mEventTransmitter with
    | some _ => [.transmitterOutput contractId outputEvent]
    | none => []

/-- Method `HTTPServer.writeMessage`; `errLocal` is only logged. -/
def HTTPServer.writeMessage (h : HTTPServer) (statusCode : Nat) (defaultMessage : String)
    (request : Request) (_errLocal : Option GoError) : List Effect :=
  [.HeaderAdd "Content-Type" h.mDefaultContentType,
   .WriteHeader statusCode,
   .Write (h.getMessage ("s" ++ fmtD statusCode ++ "m") defaultMessage (h.getLanguage request))]

/-- Method `HTTPServer.s401m`. -/
def HTTPServer.s401m (h : HTTPServer) (request : Request) (errLocal : Option GoError) :
    List Effect :=
  .responseStatusInc request.Path "401" :: h.writeMessage 401 h.d401m request errLocal

/-- Method `HTTPServer.s403m`. -/
def HTTPServer.s403m (h : HTTPServer) (request : Request) (errLocal : Option GoError) :
    List Effect :=
  .responseStatusInc request.Path "403" :: h.writeMessage 403 h.d403m request errLocal

/-- Method `HTTPServer.s405m`. -/
def HTTPServer.s405m (h : HTTPServer) (request : Request) (errLocal : Option GoError) :
    List Effect :=
  .responseStatusInc request.Path "405" :: h.writeMessage 405 h.d405m request errLocal

/-- Method `HTTPServer.s408m`. -/
def HTTPServer.s408m (h : HTTPServer) (request : Request) (errLocal : Option GoError) :
    List Effect :=
  .responseStatusInc request.Path "408" :: h.writeMessage 408 h.d408m request errLocal

/-- Method `HTTPServer.s499m`. -/
def HTTPServer.s499m (h : HTTPServer) (request : Request) (errLocal : Option GoError) :
    List Effect :=
  .responseStatusInc request.Path "499" :: h.writeMessage 499 h.d499m request errLocal

/-- Method `HTTPServer.s500m`. -/
def HTTPServer.s500m (h : HTTPServer) (request : Request) (errLocal : Option GoError) :
    List Effect :=
  .responseStatusInc request.Path "500" :: h.writeMessage 500 h.d500m request errLocal

/-! ## The environment of one request -/

/-- The two cases of the handler's `select`. -/
inductive SelectCase where
  | ctxDone
  | result
  deriving DecidableEq, Repr

/-- What the environment does during one request.
* `readAll`: the result of `ioutil.ReadAll(request.Body)`.
* `ctxDoneAt`: the moment the request's own context becomes done, with the error its
  `Err()` reports from then on; moment `0` means it is done when the handler checks
  `request.Context().Err()`; `none` means it stays live.
* `serveTime`: the moment the Service task finishes (returns or panics).
* `pick`: the case `select` takes when both cases are ready. -/
structure World where
  readAll : Except GoError String
  ctxDoneAt : Option (Nat × GoError)
  serveTime : Nat
  pick : SelectCase

/-- The value of `request.Context().Err()` at the dispatch step. -/
def World.ctxErr (w : World) : Option GoError :=
  match w.ctxDoneAt with
  | some (0, e) => some e
  | _ => none

/-- The moment `nCtx.Done()` is closed: `nCtx` is derived from the request's context
with the timeout `h.mRequestTimeout`, so it is done when the timeout has elapsed or the
request's context is done, whichever is first. -/
def HTTPServer.nCtxDoneAt (h : HTTPServer) (w : World) : Nat :=
  match w.ctxDoneAt with
  | some (t, _) => min t h.mRequestTimeout.toNat
  | none => h.mRequestTimeout.toNat

/-- Go `select` over `<-nCtx.Done()` and `<-ch`: the case that becomes ready first is
taken; when both are ready at once the runtime picks one. -/
def selectCase (doneAt : Nat) (resultAt : Option Nat) (pick : SelectCase) : SelectCase :=
  match resultAt with
  | none => .ctxDone
  | some t => if t < doneAt then .result else if doneAt < t then .ctxDone else pick

/-- A buffered Go channel of `EventResponse`. -/
structure Chan where
  capacity : Nat
  buffer : List EventResponse

/-- Go `make(chan EventResponse, capacity)`. -/
def Chan.make (capacity : Nat) : Chan := { capacity := capacity, buffer := [] }

/-- Whether a send on the channel has to wait for a receiver: the buffer is full. -/
def Chan.full (ch : Chan) : Bool := decide (ch.capacity ≤ ch.buffer.length)

/-- One run of the body of a handler: the effects in order; the value of a panic that
unwinds the handler, if any; whether the process ended while the handler was waiting;
and the effects of the Service task that occur after the handler has returned. -/
structure Run where
  effects : List Effect
  panic : Option String := none
  crashed : Bool := false
  late : List Effect := []
  deriving DecidableEq, Repr

/-- The run with effects before it and deferred effects after it. -/
def Run.wrap (r : Run) (before after : List Effect) : Run :=
  { r with effects := before ++ r.effects ++ after }

/-! ## The route handler of `AddService` -/

/-- The loops that fill `metadata.Headers`, `metadata.Query` and `headers`: for each key
with at least one value, the first value is stored under `keyOf key`. -/
def firstValues (keyOf : String → String) (l : List (String × List String)) : GoMap :=
  l.foldl (fun m kv =>
    match kv.2 with
    | v0 :: _ => m.set (keyOf kv.1) v0
    | [] => m) []

/-- The response writer's `WriteHeader` panics on a status code that does not have three
digits (`net/http`: "invalid WriteHeader code"). -/
def validWriteHeaderCode (code : Nat) : Bool := decide (100 ≤ code) && decide (code ≤ 999)

/-- The success path of the handler, after the three error checks on `r.Error`: the
counter task, the output transmission, the headers, the status code and the body.
With a nil `r.Event` or a nil `r.Event.Metadata` two faults occur: the counter task
dereferences a nil pointer, which ends the process (`crash`), and the handler itself
panics at the header loop, a panic its barrier recovers; the run records both.  With a
status code the response writer rejects, the handler panics at `WriteHeader`. -/
def HTTPServer.success (h : HTTPServer) (rt : Route) (request : Request)
    (event : Option Event) : Run :=
  let nilDeref := "runtime error: invalid memory address or nil pointer dereference"
  match event with
  | none =>
      { effects := .crash nilDeref :: h.TransmitOutputEvent rt.service.ContractId none
        panic := some nilDeref }
  | some ev =>
      match ev.Metadata with
      | none =>
          { effects := .crash nilDeref :: h.TransmitOutputEvent rt.service.ContractId (some ev)
            panic := some nilDeref }
      | some m =>
          let pre := .responseStatusInc request.Path (fmtD m.StatusCode) ::
            (h.TransmitOutputEvent rt.service.ContractId (some ev) ++
              m.Headers.map (fun kv => Effect.HeaderAdd kv.1 kv.2))
          if validWriteHeaderCode m.StatusCode then
            { effects := pre ++ [.WriteHeader m.StatusCode, .Write ev.Value] }
          else
            { effects := pre, panic := some ("invalid WriteHeader code " ++ fmtD m.StatusCode) }

/-- The case `r := <-ch` of the handler's `select`. -/
def HTTPServer.onResult (h : HTTPServer) (rt : Route) (request : Request)
    (r : EventResponse) : Run :=
  if r.Error = some .DeadlineExceeded then { effects := h.s408m request r.Error }
  else if r.Error = some .Canceled then { effects := h.s499m request r.Error }
  else if r.Error ≠ none then { effects := h.s500m request r.Error }
  else h.success rt request r.Event

/-- The dispatch step of the handler: the derived context, the result channel, the
start of the Service task unless the request's context is already done, and the
`select`.  The deferred `cancel()` closes every run in which the handler returns. -/
def HTTPServer.dispatch (h : HTTPServer) (rt : Route) (w : World) (request : Request)
    (inputEvent : Event) : Run :=
  let doneAt := h.nCtxDoneAt w
  let ch := Chan.make 1
  let timedOut : List Effect := .ctxDone :: (h.s408m request none ++ [.cancel])
  match w.ctxErr with
  | some e =>
      let r : EventResponse := { Event := none, Error := some e }
      match selectCase doneAt (some 0) w.pick with
      | .ctxDone => { effects := .chSend r ch.full :: timedOut }
      | .result => (h.onResult rt request r).wrap [.chSend r ch.full, .chRecv r] [.cancel]
  | none =>
      match rt.service.Serve inputEvent with
      | .returns event errInner =>
          let r : EventResponse := { Event := event, Error := errInner }
          match selectCase doneAt (some w.serveTime) w.pick with
          | .ctxDone =>
              { effects := .Serve inputEvent :: timedOut, late := [.chSend r ch.full] }
          | .result =>
              (h.onResult rt request r).wrap
                [.Serve inputEvent, .chSend r ch.full, .chRecv r] [.cancel]
      | .panics v =>
          match selectCase doneAt (some w.serveTime) w.pick with
          | .ctxDone => { effects := .Serve inputEvent :: timedOut, late := [.crash v] }
          | .result => { effects := [.Serve inputEvent, .crash v], crashed := true }
      | .blocks => { effects := .Serve inputEvent :: timedOut }

/-- The handler from the body read to the end. -/
def HTTPServer.afterAuth (h : HTTPServer) (rt : Route) (w : World) (request : Request)
    (metadata : Metadata) (headers : GoMap) : Run :=
  match w.readAll with
  | .error err => { effects := .ReadAll :: h.s500m request (some err) }
  | .ok data =>
      let inputEvent : Event :=
        { Metadata := some metadata
          TypeUrl := GetValue headers "content-type" "application/text"
          Value := data }
      (h.dispatch rt w request inputEvent).wrap
        (.ReadAll :: h.TransmitInputEvent rt.service.ContractId inputEvent) []

/-- The `Metadata` the handler builds from the request. -/
def HTTPServer.buildMetadata (h : HTTPServer) (request : Request) : Metadata :=
  { Method := request.Method
    Path := request.EscapedPath
    Headers := firstValues id request.Header
    Query := firstValues id request.Query
    ContractIdList := [h.ContractId] }

/-- The body of `requestHandler`, without its deferred functions. -/
def HTTPServer.handlerBody (t : CaseTables) (h : HTTPServer) (rt : Route) (w : World)
    (request : Request) : Run :=
  if !IsIn rt.methodList request.Method then { effects := h.s405m request none }
  else
    let headers := firstValues (fun k => ToLower t (TrimSpace k)) request.Header
    let metadata := h.buildMetadata request
    match rt.authorizer with
    | some a =>
        if !a.IsAuthorized rt.authorizerExpression metadata then
          { effects := .IsAuthorized rt.authorizerExpression metadata :: h.s403m request none }
        else
          (h.afterAuth rt w request metadata headers).wrap
            [.IsAuthorized rt.authorizerExpression metadata] []
    | none => h.afterAuth rt w request metadata headers

/-- The closure `requestHandler` of `AddService`: the body, then the deferred barrier.
A panic that unwinds the handler is recovered: the panic counter labelled with the
trigger's contract id is incremented and the 500 message is written.  When the process
ended meanwhile, nothing more is done. -/
def HTTPServer.requestHandler (t : CaseTables) (h : HTTPServer) (rt : Route) (w : World)
    (request : Request) : List Effect :=
  let run := h.handlerBody t rt w request
  if run.crashed then run.effects
  else
    match run.panic with
    | some v =>
        run.effects ++ [.recover v, .panicCounterInc h.ContractId] ++ h.s500m request none ++
          run.late
    | none => run.effects ++ run.late

/-- Method `HTTPServer.AddService`. -/
def HTTPServer.AddService (t : CaseTables) (h : HTTPServer) (authorizer : Option Authorizer)
    (authorizerExpression : String) (triggerValues : ConfigMap) (service : Service) :
    Except Fault HTTPServer :=
  let method := ConfigMap.String triggerValues "method" ""
  if method.length = 0 then .error (.error ErrMethodNotDefined)
  else
    let method := ToUpper t (TrimSpace method)
    let methodList := Split method ","
    let methodList := if methodList.length > 0 then sortStrings methodList else methodList
    let path := ConfigMap.String triggerValues "path" ""
    if path.length = 0 then .error (.error ErrPathNotDefined)
    else
      let path := TrimSpace path
      let route : Route :=
        { authorizer := authorizer
          authorizerExpression := authorizerExpression
          methodList := methodList
          service := service }
      match h.mHttpServerMux with
      | none => .error (.panic "runtime error: invalid memory address or nil pointer dereference")
      | some mux =>
          (mux.Handle path (.requestHandler route)).map fun m =>
            { h with mHttpServerMux := some m }

/-- Method `Echo.Serve` of `example/echo`, as a Service.  The random gauge it sets is not
recorded. -/
def Echo : Service where
  ContractId := "abesh:ex_echo"
  Serve := fun input =>
    let headers : GoMap := [("Content-Type", "application/text")]
    let out : GoMap × String × String := (headers, "application/text", "default echo")
    let out : GoMap × String × String :=
      if input.TypeUrl == "application/json" then
        (GoMap.set out.1 "Content-Type" "application/json", "application/json",
          "\x7b\"message\":\"echo\"\x7d")
      else out
    let out : GoMap × String × String :=
      if input.TypeUrl == "application/text" then
        (GoMap.set out.1 "Content-Type" "application/text", "application/text", "echo")
      else out
    .returns
      (some
        { Metadata := some
            { Headers := out.1
              ContractIdList := ["abesh:ex_echo"]
              StatusCode := 200
              Status := "OK" }
          TypeUrl := out.2.1
          Value := out.2.2 })
      none

/-- Method `ExPanic.Serve` of `example/expanic`, as a Service: the body panics, the deferred
function of `Serve` itself recovers and sets the error result. -/
def ExPanic : Service where
  ContractId := "abesh:ex_panic"
  Serve := fun _ => .returns none (some (.errorString "error from recover"))

/-! ## Reading a trace -/

/-- The status codes passed to `WriteHeader`, in order: one entry per response written. -/
def statusCodes : List Effect → List Nat
  | [] => []
  | .WriteHeader c :: rest => c :: statusCodes rest
  | _ :: rest => statusCodes rest

/-- The bodies passed to `Write`, in order. -/
def bodies : List Effect → List String
  | [] => []
  | .Write b :: rest => b :: bodies rest
  | _ :: rest => bodies rest

/-- The label pairs of the response status counter increments, in order. -/
def statusIncs : List Effect → List (String × String)
  | [] => []
  | .responseStatusInc p s :: rest => (p, s) :: statusIncs rest
  | _ :: rest => statusIncs rest

/-- The labels of the panic counter increments, in order. -/
def panicLabels : List Effect → List String
  | [] => []
  | .panicCounterInc l :: rest => l :: panicLabels rest
  | _ :: rest => panicLabels rest

/-- The effects by which a handler hands the request on: the transmission of the input
event and the start of the Service's `Serve`. -/
def Effect.handsOn : Effect → Bool
  | .TransmitInputEvent _ _ => true
  | .transmitterInput _ _ => true
  | .Serve _ => true
  | _ => false

/-- The effects of the steps that follow the method check: the Authorizer, the body
read, the input transmission and the Service. -/
def Effect.pastMethodCheck : Effect → Bool
  | .IsAuthorized _ _ => true
  | .ReadAll => true
  | .TransmitInputEvent _ _ => true
  | .transmitterInput _ _ => true
  | .Serve _ => true
  | _ => false

/-- The effects that only the deferred barrier of a handler performs. -/
def Effect.ofBarrier : Effect → Bool
  | .recover _ => true
  | .panicCounterInc _ => true
  | _ => false

/-- Whether none of the effects of a list is an effect of the barrier. -/
def barrierFree (l : List Effect) : Bool :=
  l.all (fun e => !e.ofBarrier)

/-- The method list `AddService` computes from the trigger configuration, before it is
sorted. -/
def declaredMethods (t : CaseTables) (tv : ConfigMap) : List String :=
  Split (ToUpper t (TrimSpace (ConfigMap.String tv "method" ""))) ","

/-- The route `AddService` builds from its arguments: what its `requestHandler` closure
captures. -/
def routeOf (t : CaseTables) (authorizer : Option Authorizer) (expr : String)
    (tv : ConfigMap) (service : Service) : Route :=
  { authorizer := authorizer
    authorizerExpression := expr
    methodList := sortStrings (declaredMethods t tv)
    service := service }

/-- The trigger with one more handler on the mux. -/
def HTTPServer.withHandler (h : HTTPServer) (mux : ServeMux) (pattern : String)
    (handler : Handler) : HTTPServer :=
  { h with mHttpServerMux := some (ServeMux.mk (mux.entries ++ [(pattern, handler)])) }

/-- The input Event the handler builds from the request and the body it has read. -/
def HTTPServer.inputEvent (t : CaseTables) (h : HTTPServer) (request : Request)
    (data : String) : Event :=
  { Metadata := some (h.buildMetadata request)
    TypeUrl := GetValue (firstValues (fun k => ToLower t (TrimSpace k)) request.Header)
      "content-type" "application/text"
    Value := data }

/-- The effects of the handler between the method check and the dispatch step, for a
request that passes the authorization and whose body is read. -/
def HTTPServer.preamble (t : CaseTables) (h : HTTPServer) (rt : Route) (request : Request)
    (data : String) : List Effect :=
  (match rt.authorizer with
    | some _ => [Effect.IsAuthorized rt.authorizerExpression (h.buildMetadata request)]
    | none => []) ++
  .ReadAll :: h.TransmitInputEvent rt.service.ContractId (h.inputEvent t request data)

/-- Whether a request passes the method check and the authorization of a route. -/
def Route.admits (rt : Route) (h : HTTPServer) (request : Request) : Bool :=
  IsIn rt.methodList request.Method &&
    match rt.authorizer with
    | some a => a.IsAuthorized rt.authorizerExpression (h.buildMetadata request)
    | none => true

/-! ## Concrete servers, routes and requests -/

/-- A trigger configured with the defaults, after `Setup`. -/
def exampleServer : HTTPServer :=
  { HTTPServer.SetConfigMap (fun _ => none) {} [] with
    mHttpServerMux := some (ServeMux.mk [("/", .default404)]) }

/-- A trigger configuration binding path `/echo` to method GET. -/
def echoTrigger : ConfigMap := [("method", "get"), ("path", "/echo")]

/-- A request with the given method for `/echo`, without headers. -/
def echoRequest (method : String) : Request :=
  { Method := method, Path := "/echo", EscapedPath := "/echo", Header := [], Query := [] }

/-- An environment in which the body is empty, the request is not cancelled and the
Service finishes after five nanoseconds. -/
def calmWorld : World :=
  { readAll := .ok "", ctxDoneAt := none, serveTime := 5, pick := .ctxDone }

/-- An Authorizer that denies every request. -/
def denyAll : Authorizer where
  IsAuthorized := fun _ _ => false

/-- A route for GET serving `Echo` behind `denyAll`. -/
def deniedRoute : Route :=
  { authorizer := some denyAll, authorizerExpression := "role == admin"
    methodList := ["GET"], service := Echo }

/-- A route for GET serving the given Service, without Authorizer. -/
def openRoute (service : Service) : Route :=
  { authorizer := none, authorizerExpression := "", methodList := ["GET"], service := service }

/-- A Service whose `Serve` returns a nil event and a nil error. -/
def nilService : Service where
  ContractId := "abesh:ex_nil"
  Serve := fun _ => .returns none none

/-- A Service whose `Serve` returns an event that carries no status code. -/
def statuslessService : Service where
  ContractId := "abesh:ex_statusless"
  Serve := fun _ => .returns (some { Metadata := some {}, TypeUrl := "", Value := "done" }) none

/-- A Service whose `Serve` panics and does not recover. -/
def panickingService : Service where
  ContractId := "abesh:ex_unrecovered"
  Serve := fun _ => .panics "Oh! I am panicking. Hurrah"

/-- An environment in which the Service needs two seconds. -/
def slowWorld : World :=
  { readAll := .ok "", ctxDoneAt := none, serveTime := 2000000000, pick := .result }

/-- An environment in which the request's context is already cancelled when the
handler reaches the dispatch step; `pick` is the case the `select` takes. -/
def cancelledWorld (pick : SelectCase) : World :=
  { readAll := .ok "", ctxDoneAt := some (0, .Canceled), serveTime := 5, pick := pick }

/-- An environment in which reading the request body fails. -/
def brokenBodyWorld : World :=
  { readAll := .error (.errorString "invalid byte in chunk length"), ctxDoneAt := none
    serveTime := 5, pick := .result }

/-- The output Event of `Echo` for an input of type `application/text`. -/
def echoTextOutput : Event :=
  { Metadata := some
      { Headers := [("Content-Type", "application/text")]
        ContractIdList := ["abesh:ex_echo"], StatusCode := 200, Status := "OK" }
    TypeUrl := "application/text", Value := "echo" }

/-- The default trigger with the `/echo` route of `echoTrigger` added. -/
def echoServer (t : CaseTables) : HTTPServer :=
  exampleServer.withHandler (ServeMux.mk [("/", .default404)]) "/echo"
    (.requestHandler (routeOf t none "" echoTrigger Echo))

/-- The status codes for which `SetConfigMap` stores a default message. -/
def statusFamily : List Nat := [401, 403, 404, 405, 408, 409, 499, 500]

/-- JSON white space: space, tab, line feed, carriage return. -/
def isJSONSpace (c : Char) : Bool :=
  c.toNat == 32 || c.toNat == 9 || c.toNat == 10 || c.toNat == 13

/-- A JSON text without the white space that stands outside its string literals.
`inString` tells whether the scan is inside a string literal, `escaped` whether the
previous character was a backslash inside one. -/
def compactJSON : List Char → Bool → Bool → List Char
  | [], _, _ => []
  | c :: rest, true, true => c :: compactJSON rest true false
  | c :: rest, true, false => c :: compactJSON rest (c.toNat != 34) (c.toNat == 92)
  | c :: rest, false, _ =>
      if isJSONSpace c then compactJSON rest false false
      else c :: compactJSON rest (c.toNat == 34) false

/-- The compact form of a JSON body. -/
def compactBody (s : String) : String :=
  String.mk (compactJSON s.data false false)

/-- The JSON body the specification gives for a status code, written without white
space. -/
def specDefaultBody (c : Nat) : String :=
  "\x7b\"code\":\"SE_" ++ fmtD c ++ "\",\"lang\":\"en\",\"message\":\"" ++ fmtD c ++
    " ERROR\",\"data\":\x7b\x7d\x7d"

/-- The language of a request as the specification words it: the value of the
`Accept-Language` header, or `en` when the header is absent or empty. -/
def specLanguage (request : Request) : String :=
  match request.Header.lookup "Accept-Language" with
  | some (v :: _) => if v = "" then "en" else v
  | _ => "en"

/-- The three-step fallback of the specification for the message of a status code:
the value of `s<c>m_<lang>` when present and not empty, otherwise the value of `s<c>m`
when present, otherwise the default template. -/
def specMessage (config : ConfigMap) (c : Nat) (d lang : String) : String :=
  let general : String :=
    match config.lookup ("s" ++ fmtD c ++ "m") with
    | some v => v
    | none => d
  match config.lookup ("s" ++ fmtD c ++ "m_" ++ lang) with
  | some v => if v = "" then general else v
  | none => general

/-- Upper-casing with these tables never makes a comma of another character (no
character has the comma as its upper case). -/
def CaseTables.keepsComma (t : CaseTables) : Prop :=
  ∀ c : Char, unicodeToUpper t c = ',' → c = ','

/-- The key under which the handler files a header in its lookup map `headers`. -/
def headerKey (t : CaseTables) (k : String) : String := ToLower t (TrimSpace k)

/-- The lookup map `headers` the handler builds next to the Metadata and reads the
content type from. -/
def lookupHeaders (t : CaseTables) (request : Request) : GoMap :=
  firstValues (fun k => ToLower t (TrimSpace k)) request.Header

/-- Table `isTokenTable` of `httpguts` and function `validHeaderFieldByte` of
`net/textproto`: the characters of a token of RFC 7230, all of them ASCII. -/
def isTokenChar (c : Char) : Bool :=
  let n := c.toNat
  n == 33 || (decide (35 ≤ n) && decide (n ≤ 39)) || n == 42 || n == 43 || n == 45 || n == 46 ||
  (decide (48 ≤ n) && decide (n ≤ 57)) || (decide (65 ≤ n) && decide (n ≤ 90)) ||
  (decide (94 ≤ n) && decide (n ≤ 122)) || n == 124 || n == 126

/-- Function `httpguts.ValidHeaderFieldName`: a non-empty string of token characters. -/
def ValidHeaderFieldName (v : String) : Bool :=
  v.length != 0 && v.data.all isTokenChar

/-- The loop of `canonicalMIMEHeaderKey`: the first letter and every letter after a hyphen
in upper case, the other letters in lower case; `upper` tells whether the next character
starts a word. -/
def canonicalMIME : List Char → Bool → List Char
  | [], _ => []
  | c :: rest, upper =>
      let c2 := if upper then c.toUpper else c.toLower
      c2 :: canonicalMIME rest (c2 == '-')

/-- Go `textproto.CanonicalMIMEHeaderKey`: the canonical form of a header name; a name
with a character that is not a token character is returned as it is. -/
def CanonicalMIMEHeaderKey (s : String) : String :=
  if s.data.all isTokenChar then String.mk (canonicalMIME s.data true) else s

/-- The header of a request as the server of `net/http` hands it to a handler: every name
is a valid field name (the server answers a request with another name with 400 itself)
and is in canonical form (the reader of the header stores each name in that form). -/
def Request.headerAsServed (r : Request) : Prop :=
  ∀ kv ∈ r.Header, ValidHeaderFieldName kv.1 = true ∧ CanonicalMIMEHeaderKey kv.1 = kv.1

/-- The entry a loop over the header visits last among the entries that have a value and
whose name has the lower-cased, trimmed form `key`. -/
def lastWithKey (t : CaseTables) (key : String) (l : List (String × List String)) :
    Option (String × List String) :=
  (l.filter (fun kv => !kv.2.isEmpty && headerKey t kv.1 == key)).getLast?

/-- A GET request for `/echo` with two headers and one query key, as the server hands
it to a handler. -/
def servedRequest : Request :=
  { Method := "GET", Path := "/echo", EscapedPath := "/echo"
    Header := [("Content-Type", ["application/json", "text/plain"]), ("Accept", ["a", "b"])]
    Query := [("q", ["1", "2"])] }

/-- Modelled from the spec: the structured error of package `errors`, of which only the
tests are among the source files.  It has a prefix, a message, an optional data
mapping, a retryable flag and an optional wrapped cause; the numeric code and the stack
trace play no part in `Error` and `Unwrap` and are left out. -/
structure StructuredError where
  Prefix : String
  Message : String
  Data : Option GoMap := none
  Retryable : Bool := false
  Cause : Option GoError := none
  deriving DecidableEq, Repr

/-- Modelled from the spec: `Error()` renders `<prefix>: <message>`, or, when a cause is
present, `<prefix>: <message>: <cause.Error()>`. -/
def StructuredError.Error (e : StructuredError) : String :=
  match e.Cause with
  | none => e.Prefix ++ ": " ++ e.Message
  | some cause => e.Prefix ++ ": " ++ e.Message ++ ": " ++ cause.Error

/-- Modelled from the spec: `Unwrap()` exposes the wrapped cause, nil when there is
none. -/
def StructuredError.Unwrap (e : StructuredError) : Option GoError :=
  e.Cause

/-- Modelled from the spec: `New(code, prefix, message, data)` builds a non-retryable
error without cause. -/
def StructuredError.New (errPrefix message : String) (data : Option GoMap) : StructuredError :=
  { Prefix := errPrefix, Message := message, Data := data }

/-- Modelled from the spec: `NewInternalErrorWithCause(cause, message, data, code)` has
the prefix `internal_service.<code>` and wraps `cause`. -/
def NewInternalErrorWithCause (cause : Option GoError) (message : String)
    (data : Option GoMap) (code : String) : StructuredError :=
  { Prefix := "internal_service" ++ "." ++ code, Message := message, Data := data
    Cause := cause }

/-- A Go type that satisfies the constraint `comparable`, with its operator `==`:
`equal a b` is the result of `a == b`, nothing when the comparison panics (two interface
values of the same dynamic type, when that type is not comparable; types that hold
interface values satisfy `comparable` from Go 1.20 on). -/
class Comparable (T : Type) where
  equal : T → T → Option Bool

/-- Go `==` on `string`. -/
instance Comparable.string : Comparable String where
  equal := fun a b => some (a == b)

/-- Go `==` on the integer types, `int` and `uint` among them. -/
instance Comparable.integer : Comparable Int where
  equal := fun a b => some (a == b)

/-- A Go `float64`: the sign, the biased exponent of 11 bits and the fraction of 52 bits
of IEEE 754. -/
structure Float64 where
  sign : Bool
  exponent : Fin 2048
  fraction : Fin 4503599627370496
  deriving DecidableEq

/-- Whether a `float64` is a NaN: the exponent is all ones and the fraction is not zero. -/
def Float64.isNaN (f : Float64) : Bool :=
  f.exponent == 2047 && f.fraction != 0

/-- Whether a `float64` is a zero, positive or negative. -/
def Float64.isZero (f : Float64) : Bool :=
  f.exponent == 0 && f.fraction == 0

/-- Go `==` on `float64`, the comparison of IEEE 754: a NaN is equal to nothing, the two
zeros are equal, every other value is equal to itself only. -/
def Float64.eq (a b : Float64) : Bool :=
  !a.isNaN && !b.isNaN && (a == b || (a.isZero && b.isZero))

instance Comparable.float64 : Comparable Float64 where
  equal := fun a b => some (Float64.eq a b)

/-- The `float64` of a whole number from 1 to 7. -/
def Float64.small : Nat → Float64
  | 1 => { sign := false, exponent := 1023, fraction := 0 }
  | 2 => { sign := false, exponent := 1024, fraction := 0 }
  | 3 => { sign := false, exponent := 1024, fraction := 2251799813685248 }
  | 4 => { sign := false, exponent := 1025, fraction := 0 }
  | 5 => { sign := false, exponent := 1025, fraction := 1125899906842624 }
  | 6 => { sign := false, exponent := 1025, fraction := 2251799813685248 }
  | 7 => { sign := false, exponent := 1025, fraction := 3377699720527872 }
  | _ => { sign := false, exponent := 0, fraction := 0 }

/-- A quiet NaN, the value of Go `math.NaN()`. -/
def Float64.NaN : Float64 :=
  { sign := false, exponent := 2047, fraction := 2251799813685249 }

/-- A Go interface value, by its dynamic type: a string, an integer, or a slice of
integers, a type that is not comparable. -/
inductive Dynamic where
  | string (s : String)
  | int (i : Int)
  | slice (l : List Int)
  deriving DecidableEq

/-- Go `==` on interface values: values of different dynamic types are unequal, values
of the same comparable dynamic type are compared, and the comparison of two values of
the same dynamic type that is not comparable panics. -/
instance Comparable.dynamic : Comparable Dynamic where
  equal := fun a b =>
    match a, b with
    | .string s1, .string s2 => some (s1 == s2)
    | .int i1, .int i2 => some (i1 == i2)
    | .slice _, .slice _ => none
    | _, _ => some false

/-- Function `utility.IsInGeneric`: linear scan of the list with `==`, over any
comparable element type; nothing stands for a panic of a comparison. -/
def IsInGeneric {T : Type} [Comparable T] : List T → T → Option Bool
  | [], _ => some false
  | v :: rest, value =>
      match Comparable.equal v value with
      | some true => some true
      | some false => IsInGeneric rest value
      | none => none

/-- The operator `==` of a comparable type is identity of values: it never panics and
is true of two values exactly when they are the same value. -/
def Comparable.isIdentity (T : Type) [Comparable T] : Prop :=
  ∀ a b : T, (Comparable.equal a b = some true ∧ a = b) ∨
    (Comparable.equal a b = some false ∧ a ≠ b)

/-! ## strconv and the integer accessors of ConfigMap -/

/-- The Go type of mathematical integers in the range of an integer type, under a name
that the accessors of `ConfigMap` do not shadow. -/
abbrev GoInteger := Int

/-- The value of a decimal digit. -/
def digitValue (c : Char) : Option Nat :=
  if 48 ≤ c.toNat ∧ c.toNat ≤ 57 then some (c.toNat - 48) else none

/-- The value of a string of decimal digits, read from the left with `acc` the value
so far; nothing when a character is not a digit. -/
def parseDigits : List Char → Nat → Option Nat
  | [], acc => some acc
  | c :: rest, acc =>
      match digitValue c with
      | some d => parseDigits rest (acc * 10 + d)
      | none => none

/-- Go `strconv.ParseUint(s, 10, bitSize)` for a bit size from 8 to 64, nothing standing
for an error: the string is one or more decimal digits, without sign, and its value is
below `2 ^ bitSize`. -/
def ParseUint (s : String) (bitSize : Nat) : Option Nat :=
  match s.data with
  | [] => none
  | cs =>
      match parseDigits cs 0 with
      | some n => if n < 2 ^ bitSize then some n else none
      | none => none

/-- Go `strconv.ParseInt(s, 10, bitSize)`, nothing standing for an error: an optional
sign, then the magnitude parsed as by `ParseUint` with 64 bits, then the range check
of the bit size; bit size 0 stands for the size of `int`, `IntSize`. -/
def ParseInt (IntSize : Nat) (s : String) (bitSize : Nat) : Option Int :=
  match s.data with
  | [] => none
  | c :: rest =>
      let neg : Bool := c == '-'
      let body : List Char := if c == '+' || c == '-' then rest else c :: rest
      match ParseUint (String.mk body) 64 with
      | none => none
      | some un =>
          let bits : Nat := if bitSize = 0 then IntSize else bitSize
          let cutoff : Nat := 2 ^ (bits - 1)
          if !neg && decide (cutoff ≤ un) then none
          else if neg && decide (cutoff < un) then none
          else some (if neg then - (un : Int) else (un : Int))

/-- Go `strconv.Atoi(s)`: `ParseInt(s, 10, 0)`. -/
def Atoi (IntSize : Nat) (s : String) : Option Int :=
  ParseInt IntSize s 0

/-- The Go conversion of an integer to a signed type of `w` bits: the value modulo
`2 ^ w`, read as a signed number. -/
def toSigned (w : Nat) (i : Int) : Int :=
  let m := i % (2 ^ w : Int)
  if m < (2 ^ (w - 1) : Int) then m else m - (2 ^ w : Int)

/-- The Go conversion of an integer to an unsigned type of `w` bits: the value modulo
`2 ^ w`. -/
def toUnsigned (w : Nat) (i : Int) : Int :=
  i % (2 ^ w : Int)

/-- Method `ConfigMap.Int`: `strconv.Atoi`; `IntSize` is the size of `int` in bits. -/
def ConfigMap.Int (IntSize : Nat) (v : ConfigMap) (key : GoString)
    (defaultValue : GoInteger) : GoInteger :=
  match v.lookup key with
  | some o =>
      match Atoi IntSize o with
      | some i => i
      | none => defaultValue
  | none => defaultValue

/-- Method `ConfigMap.Uint`: `strconv.ParseUint(o, 10, 32)`, the value converted to `uint`. -/
def ConfigMap.Uint (v : ConfigMap) (key : GoString)
    (defaultValue : GoInteger) : GoInteger :=
  match v.lookup key with
  | some o =>
      match ParseUint o 32 with
      | some i => Int.ofNat i
      | none => defaultValue
  | none => defaultValue

/-- Method `ConfigMap.Int8`: `strconv.ParseInt(o, 10, 8)`. -/
def ConfigMap.Int8 (IntSize : Nat) (v : ConfigMap) (key : GoString)
    (defaultValue : GoInteger) : GoInteger :=
  match v.lookup key with
  | some o =>
      match ParseInt IntSize o 8 with
      | some i => i
      | none => defaultValue
  | none => defaultValue

/-- Method `ConfigMap.Uint8`: `strconv.ParseUint(o, 10, 8)`. -/
def ConfigMap.Uint8 (v : ConfigMap) (key : GoString)
    (defaultValue : GoInteger) : GoInteger :=
  match v.lookup key with
  | some o =>
      match ParseUint o 8 with
      | some i => Int.ofNat i
      | none => defaultValue
  | none => defaultValue

/-- Method `ConfigMap.Int16`: `strconv.ParseInt(o, 10, 16)`. -/
def ConfigMap.Int16 (IntSize : Nat) (v : ConfigMap) (key : GoString)
    (defaultValue : GoInteger) : GoInteger :=
  match v.lookup key with
  | some o =>
      match ParseInt IntSize o 16 with
      | some i => i
      | none => defaultValue
  | none => defaultValue

/-- Method `ConfigMap.Uint16`: `strconv.ParseUint(o, 10, 16)`. -/
def ConfigMap.Uint16 (v : ConfigMap) (key : GoString)
    (defaultValue : GoInteger) : GoInteger :=
  match v.lookup key with
  | some o =>
      match ParseUint o 16 with
      | some i => Int.ofNat i
      | none => defaultValue
  | none => defaultValue

/-- Method `ConfigMap.Int32`: `strconv.ParseInt(o, 10, 32)`. -/
def ConfigMap.Int32 (IntSize : Nat) (v : ConfigMap) (key : GoString)
    (defaultValue : GoInteger) : GoInteger :=
  match v.lookup key with
  | some o =>
      match ParseInt IntSize o 32 with
      | some i => i
      | none => defaultValue
  | none => defaultValue

/-- Method `ConfigMap.Uint32`: `strconv.ParseUint(o, 10, 32)`. -/
def ConfigMap.Uint32 (v : ConfigMap) (key : GoString)
    (defaultValue : GoInteger) : GoInteger :=
  match v.lookup key with
  | some o =>
      match ParseUint o 32 with
      | some i => Int.ofNat i
      | none => defaultValue
  | none => defaultValue

/-- Method `ConfigMap.Int64`: `strconv.ParseInt(o, 10, 64)`. -/
def ConfigMap.Int64 (IntSize : Nat) (v : ConfigMap) (key : GoString)
    (defaultValue : GoInteger) : GoInteger :=
  match v.lookup key with
  | some o =>
      match ParseInt IntSize o 64 with
      | some i => i
      | none => defaultValue
  | none => defaultValue

/-- Method `ConfigMap.Uint64`: `strconv.ParseUint(o, 10, 64)`. -/
def ConfigMap.Uint64 (v : ConfigMap) (key : GoString)
    (defaultValue : GoInteger) : GoInteger :=
  match v.lookup key with
  | some o =>
      match ParseUint o 64 with
      | some i => Int.ofNat i
      | none => defaultValue
  | none => defaultValue

/-- The loop of the integer list accessors that parse with `strconv.Atoi`: each piece
is parsed, converted to the element type and appended to `result`; the first piece
that does not parse ends the accessor with its default, here nothing. -/
def atoiLoop (IntSize : Nat) (convert : Int → Int) : List String → List Int → Option (List Int)
  | [], result => some result
  | val :: rest, result =>
      match Atoi IntSize val with
      | none => none
      | some i => atoiLoop IntSize convert rest (result ++ [convert i])

/-- Method `ConfigMap.IntList`: the pieces parsed with `strconv.Atoi`. -/
def ConfigMap.IntList (IntSize : Nat) (v : ConfigMap) (key sep : GoString)
    (defaultValue : List GoInteger) : List GoInteger :=
  match v.lookup key with
  | some o =>
      match atoiLoop IntSize id (Split o sep) [] with
      | some result => result
      | none => defaultValue
  | none => defaultValue

/-- Method `ConfigMap.Int8List`: the pieces parsed with `strconv.Atoi` and converted with `int8(i)`. -/
def ConfigMap.Int8List (IntSize : Nat) (v : ConfigMap) (key sep : GoString)
    (defaultValue : List GoInteger) : List GoInteger :=
  match v.lookup key with
  | some o =>
      match atoiLoop IntSize (toSigned 8) (Split o sep) [] with
      | some result => result
      | none => defaultValue
  | none => defaultValue

/-- Method `ConfigMap.Int16List`: the pieces parsed with `strconv.Atoi` and converted with `int16(i)`. -/
def ConfigMap.Int16List (IntSize : Nat) (v : ConfigMap) (key sep : GoString)
    (defaultValue : List GoInteger) : List GoInteger :=
  match v.lookup key with
  | some o =>
      match atoiLoop IntSize (toSigned 16) (Split o sep) [] with
      | some result => result
      | none => defaultValue
  | none => defaultValue

/-- Method `ConfigMap.Int32List`: the pieces parsed with `strconv.Atoi` and converted with `int32(i)`. -/
def ConfigMap.Int32List (IntSize : Nat) (v : ConfigMap) (key sep : GoString)
    (defaultValue : List GoInteger) : List GoInteger :=
  match v.lookup key with
  | some o =>
      match atoiLoop IntSize (toSigned 32) (Split o sep) [] with
      | some result => result
      | none => defaultValue
  | none => defaultValue

/-- Method `ConfigMap.UintList`: the pieces parsed with `strconv.Atoi` and converted with `uint(i)`. -/
def ConfigMap.UintList (IntSize : Nat) (v : ConfigMap) (key sep : GoString)
    (defaultValue : List GoInteger) : List GoInteger :=
  match v.lookup key with
  | some o =>
      match atoiLoop IntSize (toUnsigned IntSize) (Split o sep) [] with
      | some result => result
      | none => defaultValue
  | none => defaultValue

/-- Method `ConfigMap.Uint8List`: the pieces parsed with `strconv.Atoi` and converted with `uint8(i)`. -/
def ConfigMap.Uint8List (IntSize : Nat) (v : ConfigMap) (key sep : GoString)
    (defaultValue : List GoInteger) : List GoInteger :=
  match v.lookup key with
  | some o =>
      match atoiLoop IntSize (toUnsigned 8) (Split o sep) [] with
      | some result => result
      | none => defaultValue
  | none => defaultValue

/-- Method `ConfigMap.Uint16List`: the pieces parsed with `strconv.Atoi` and converted with `uint16(i)`. -/
def ConfigMap.Uint16List (IntSize : Nat) (v : ConfigMap) (key sep : GoString)
    (defaultValue : List GoInteger) : List GoInteger :=
  match v.lookup key with
  | some o =>
      match atoiLoop IntSize (toUnsigned 16) (Split o sep) [] with
      | some result => result
      | none => defaultValue
  | none => defaultValue

/-- Method `ConfigMap.Uint32List`: the pieces parsed with `strconv.Atoi` and converted with `uint32(i)`. -/
def ConfigMap.Uint32List (IntSize : Nat) (v : ConfigMap) (key sep : GoString)
    (defaultValue : List GoInteger) : List GoInteger :=
  match v.lookup key with
  | some o =>
      match atoiLoop IntSize (toUnsigned 32) (Split o sep) [] with
      | some result => result
      | none => defaultValue
  | none => defaultValue

/-- The behaviour the specification gives an integer list accessor that parses with
`Atoi` and converts with `convert`: for every configuration in which the key is
present, the accessor returns the default when a piece of the stored text does not
parse, and otherwise the converted values of the pieces, in order, one per piece. -/
def AllOrNothing (IntSize : Nat) (convert : Int → Int)
    (accessor : ConfigMap → String → String → List Int → List Int) : Prop :=
  ∀ (v : ConfigMap) (k sep o : String) (d : List Int), v.lookup k = some o →
    ((∃ p ∈ Split o sep, Atoi IntSize p = none) → accessor v k sep d = d) ∧
    (∀ values : List Int, (Split o sep).map (Atoi IntSize) = values.map some →
      accessor v k sep d = values.map convert)

/-! ## Lemmas on the helpers -/

theorem IsIn_iff (l : List String) (v : String) : IsIn l v = true ↔ v ∈ l := by
  induction l with
  | nil => simp [IsIn]
  | cons a rest ih =>
      unfold IsIn
      by_cases hav : a = v
      · simp [hav]
      · have hva : ¬ v = a := fun hh => hav hh.symm
        simp [hav, hva, ih]

theorem mem_sortStrings (l : List String) (x : String) : x ∈ sortStrings l ↔ x ∈ l :=
  (List.perm_insertionSort strLE l).mem_iff

theorem String_length_eq_zero (s : String) : s.length = 0 ↔ s = "" := by
  cases s with
  | mk d =>
      constructor
      · intro hl
        have hd : d = [] := List.length_eq_zero.mp hl
        subst hd
        rfl
      · intro hs
        rw [hs]
        rfl

theorem handler_405 {t : CaseTables} (hs : HTTPServer) (rt : Route) (w : World) (request : Request)
    (hm : IsIn rt.methodList request.Method = false) :
    hs.requestHandler t rt w request = hs.s405m request none := by
  simp [HTTPServer.requestHandler, HTTPServer.handlerBody, hm]

theorem s405m_eq (hs : HTTPServer) (request : Request) (e : Option GoError) :
    hs.s405m request e =
      [.responseStatusInc request.Path "405",
       .HeaderAdd "Content-Type" hs.mDefaultContentType,
       .WriteHeader 405,
       .Write (hs.getMessage "s405m" hs.d405m (hs.getLanguage request))] := by
  rfl

theorem splitGo_ne_nil (sep : List Char) (s : List Char) (k : Nat) (cur : List Char) :
    splitGo sep s k cur ≠ [] := by
  induction s generalizing k cur with
  | nil => simp [splitGo]
  | cons c cs ih =>
      cases k with
      | zero =>
          unfold splitGo
          split
          · simp
          · exact ih 0 (c :: cur)
      | succ k =>
          unfold splitGo
          exact ih k cur

theorem AddService_ok {t : CaseTables}
    (h h2 : HTTPServer) (authorizer : Option Authorizer) (expr : String)
    (tv : ConfigMap) (service : Service)
    (hadd : h.AddService t authorizer expr tv service = .ok h2) :
    ∃ mux : ServeMux, h.mHttpServerMux = some mux ∧
      ConfigMap.String tv "method" "" ≠ "" ∧ ConfigMap.String tv "path" "" ≠ "" ∧
      TrimSpace (ConfigMap.String tv "path" "") ≠ "" ∧
      (∀ e ∈ mux.entries, e.1 ≠ TrimSpace (ConfigMap.String tv "path" "")) ∧
      h2 = h.withHandler mux (TrimSpace (ConfigMap.String tv "path" ""))
        (.requestHandler (routeOf t authorizer expr tv service)) := by
  unfold HTTPServer.AddService at hadd
  simp only [] at hadd
  split at hadd
  · simp at hadd
  · rename_i hmeth
    split at hadd
    · simp at hadd
    · rename_i hpath
      split at hadd
      · simp at hadd
      · rename_i mux hmux
        refine ⟨mux, hmux, ?_, ?_, ?_⟩
        · intro hh; exact hmeth (by rw [hh]; rfl)
        · intro hh; exact hpath (by rw [hh]; rfl)
        · unfold ServeMux.Handle at hadd
          split at hadd
          · simp [Except.map] at hadd
          · rename_i hne
            split at hadd
            · simp [Except.map] at hadd
            · rename_i hdup
              simp [Except.map] at hadd
              refine ⟨hne, ?_, ?_⟩
              · intro e he heq
                apply hdup
                simp
                exact ⟨e.2, by rw [← heq]; exact he⟩
              · rw [← hadd]
                simp [HTTPServer.withHandler, routeOf, declaredMethods]
                intro hnil
                rw [hnil]
                rfl

theorem requestHandler_head {t : CaseTables}
    (h : HTTPServer) (rt : Route) (w : World) (request : Request)
    (a : Authorizer) (ha : rt.authorizer = some a)
    (hm : IsIn rt.methodList request.Method = true) :
    ∃ rest, h.requestHandler t rt w request =
      .IsAuthorized rt.authorizerExpression (h.buildMetadata request) :: rest := by
  unfold HTTPServer.requestHandler
  simp only [HTTPServer.handlerBody, hm, ha, Run.wrap]
  simp only [Bool.not_true, Bool.false_eq_true, if_false]
  split
  · split
    · exact ⟨_, rfl⟩
    · split <;> exact ⟨_, rfl⟩
  · split
    · exact ⟨_, rfl⟩
    · split <;> exact ⟨_, rfl⟩

theorem requestHandler_denied {t : CaseTables}
    (h : HTTPServer) (rt : Route) (w : World) (request : Request)
    (a : Authorizer) (ha : rt.authorizer = some a)
    (hm : IsIn rt.methodList request.Method = true)
    (hd : a.IsAuthorized rt.authorizerExpression (h.buildMetadata request) = false) :
    h.requestHandler t rt w request =
      .IsAuthorized rt.authorizerExpression (h.buildMetadata request) :: h.s403m request none := by
  simp [HTTPServer.requestHandler, HTTPServer.handlerBody, hm, ha, hd]

theorem s403m_eq (hs : HTTPServer) (request : Request) (e : Option GoError) :
    hs.s403m request e =
      [.responseStatusInc request.Path "403",
       .HeaderAdd "Content-Type" hs.mDefaultContentType,
       .WriteHeader 403,
       .Write (hs.getMessage "s403m" hs.d403m (hs.getLanguage request))] := by
  rfl


theorem statusCodes_append (a b : List Effect) :
    statusCodes (a ++ b) = statusCodes a ++ statusCodes b := by
  induction a with
  | nil => rfl
  | cons x rest ih => cases x <;> simp [statusCodes, ih]

theorem bodies_append (a b : List Effect) : bodies (a ++ b) = bodies a ++ bodies b := by
  induction a with
  | nil => rfl
  | cons x rest ih => cases x <;> simp [bodies, ih]

theorem panicLabels_append (a b : List Effect) :
    panicLabels (a ++ b) = panicLabels a ++ panicLabels b := by
  induction a with
  | nil => rfl
  | cons x rest ih => cases x <;> simp [panicLabels, ih]

theorem panicLabels_headers (l : GoMap) :
    panicLabels (l.map (fun kv => Effect.HeaderAdd kv.1 kv.2)) = [] := by
  induction l with
  | nil => rfl
  | cons x rest ih => simp [panicLabels, ih]

theorem statusCodes_TransmitOutputEvent (h : HTTPServer) (c : String) (ev : Option Event) :
    statusCodes (h.TransmitOutputEvent c ev) = [] := by
  unfold HTTPServer.TransmitOutputEvent
  cases h.mEventTransmitter <;> rfl

theorem bodies_TransmitOutputEvent (h : HTTPServer) (c : String) (ev : Option Event) :
    bodies (h.TransmitOutputEvent c ev) = [] := by
  unfold HTTPServer.TransmitOutputEvent
  cases h.mEventTransmitter <;> rfl

theorem panicLabels_TransmitOutputEvent (h : HTTPServer) (c : String) (ev : Option Event) :
    panicLabels (h.TransmitOutputEvent c ev) = [] := by
  unfold HTTPServer.TransmitOutputEvent
  cases h.mEventTransmitter <;> rfl

theorem statusCodes_preamble {t : CaseTables}
    (h : HTTPServer) (rt : Route) (request : Request) (data : String) :
    statusCodes (h.preamble t rt request data) = [] := by
  unfold HTTPServer.preamble HTTPServer.TransmitInputEvent
  cases rt.authorizer <;> cases h.mEventTransmitter <;> rfl

theorem bodies_preamble {t : CaseTables}
    (h : HTTPServer) (rt : Route) (request : Request) (data : String) :
    bodies (h.preamble t rt request data) = [] := by
  unfold HTTPServer.preamble HTTPServer.TransmitInputEvent
  cases rt.authorizer <;> cases h.mEventTransmitter <;> rfl

theorem panicLabels_preamble {t : CaseTables}
    (h : HTTPServer) (rt : Route) (request : Request) (data : String) :
    panicLabels (h.preamble t rt request data) = [] := by
  unfold HTTPServer.preamble HTTPServer.TransmitInputEvent
  cases rt.authorizer <;> cases h.mEventTransmitter <;> rfl

/-- A request that passes the method check and the authorization, and whose body is
read, reaches the dispatch step after the effects of `preamble`. -/
theorem handlerBody_admitted {t : CaseTables}
    (h : HTTPServer) (rt : Route) (w : World) (request : Request)
    (data : String) (hadm : rt.admits h request = true) (hbody : w.readAll = .ok data) :
    h.handlerBody t rt w request =
      (h.dispatch rt w request (h.inputEvent t request data)).wrap
        (h.preamble t rt request data) [] := by
  unfold Route.admits at hadm
  simp only [Bool.and_eq_true] at hadm
  obtain ⟨hm, hauth⟩ := hadm
  unfold HTTPServer.handlerBody HTTPServer.preamble
  simp only [hm, Bool.not_true, Bool.false_eq_true, if_false]
  cases ha : rt.authorizer with
  | none =>
      simp [HTTPServer.afterAuth, hbody, Run.wrap, HTTPServer.inputEvent]
  | some a =>
      rw [ha] at hauth
      simp only [] at hauth
      simp [HTTPServer.afterAuth, hbody, Run.wrap, HTTPServer.inputEvent, hauth]

theorem selectCase_late (doneAt t : Nat) (pick : SelectCase) (hlt : doneAt < t) :
    selectCase doneAt (some t) pick = .ctxDone := by
  unfold selectCase
  have h1 : ¬ t < doneAt := by omega
  simp [h1, hlt]

theorem selectCase_early (doneAt t : Nat) (pick : SelectCase) (hlt : t < doneAt) :
    selectCase doneAt (some t) pick = .result := by
  unfold selectCase
  simp [hlt]

theorem nCtxDoneAt_le (h : HTTPServer) (w : World) :
    h.nCtxDoneAt w ≤ h.mRequestTimeout.toNat := by
  unfold HTTPServer.nCtxDoneAt
  split
  · exact Nat.min_le_right _ _
  · exact Nat.le_refl _

theorem s408m_eq (hs : HTTPServer) (request : Request) (e : Option GoError) :
    hs.s408m request e =
      [.responseStatusInc request.Path "408",
       .HeaderAdd "Content-Type" hs.mDefaultContentType,
       .WriteHeader 408,
       .Write (hs.getMessage "s408m" hs.d408m (hs.getLanguage request))] := by
  rfl

/-- The trace of a request whose Service task is still running when `nCtx` is done. -/
theorem requestHandler_timeout {t : CaseTables}
    (h : HTTPServer) (rt : Route) (w : World) (request : Request)
    (data : String) (hadm : rt.admits h request = true) (hbody : w.readAll = .ok data)
    (hlive : w.ctxErr = none)
    (hlate : rt.service.Serve (h.inputEvent t request data) = .blocks ∨
      h.mRequestTimeout.toNat < w.serveTime) :
    h.requestHandler t rt w request =
      h.preamble t rt request data ++
        ([.Serve (h.inputEvent t request data), .ctxDone] ++ h.s408m request none ++ [.cancel]) ++
        match rt.service.Serve (h.inputEvent t request data) with
        | .returns ev err => [.chSend { Error := err, Event := ev } false]
        | .panics v => [.crash v]
        | .blocks => [] := by
  have hsel : ∀ pick, rt.service.Serve (h.inputEvent t request data) ≠ .blocks →
      selectCase (h.nCtxDoneAt w) (some w.serveTime) pick = .ctxDone := by
    intro pick hnb
    apply selectCase_late
    rcases hlate with hb | hlt
    · exact absurd hb hnb
    · exact Nat.lt_of_le_of_lt (nCtxDoneAt_le h w) hlt
  unfold HTTPServer.requestHandler
  rw [handlerBody_admitted h rt w request data hadm hbody]
  unfold HTTPServer.dispatch
  simp only [hlive]
  cases hs : rt.service.Serve (h.inputEvent t request data) with
  | returns ev err =>
      have := hsel w.pick (by rw [hs]; intro hh; cases hh)
      simp [this, Run.wrap, Chan.full, Chan.make]
  | panics v =>
      have := hsel w.pick (by rw [hs]; intro hh; cases hh)
      simp [this, Run.wrap]
  | blocks =>
      simp [Run.wrap]


theorem barrierFree_append (a b : List Effect) :
    barrierFree (a ++ b) = (barrierFree a && barrierFree b) := by
  simp [barrierFree, List.all_append]

theorem barrierFree_cons (x : Effect) (l : List Effect) :
    barrierFree (x :: l) = (!x.ofBarrier && barrierFree l) := by
  simp [barrierFree]

theorem panicLabels_of_barrierFree (l : List Effect) (hl : barrierFree l = true) :
    panicLabels l = [] := by
  induction l with
  | nil => rfl
  | cons x rest ih =>
      rw [barrierFree_cons] at hl
      simp only [Bool.and_eq_true] at hl
      have hrest := ih hl.2
      have hx := hl.1
      cases x <;> first | (simp [Effect.ofBarrier] at hx; done) | simp [panicLabels, hrest]

theorem not_recover_of_barrierFree (l : List Effect) (hl : barrierFree l = true) (v : String) :
    Effect.recover v ∉ l := by
  intro hmem
  unfold barrierFree at hl
  rw [List.all_eq_true] at hl
  have := hl _ hmem
  simp [Effect.ofBarrier] at this

theorem barrierFree_message (h : HTTPServer) (code : Nat) (d : String) (request : Request)
    (err : Option GoError) (p s : String) :
    barrierFree (Effect.responseStatusInc p s :: h.writeMessage code d request err) = true := by
  rfl

theorem barrierFree_TransmitOutputEvent (h : HTTPServer) (c : String) (ev : Option Event) :
    barrierFree (h.TransmitOutputEvent c ev) = true := by
  unfold HTTPServer.TransmitOutputEvent
  cases h.mEventTransmitter <;> rfl

theorem barrierFree_headers (l : GoMap) :
    barrierFree (l.map (fun kv => Effect.HeaderAdd kv.1 kv.2)) = true := by
  induction l with
  | nil => rfl
  | cons x rest ih => rw [List.map_cons, barrierFree_cons, ih]; rfl

theorem barrierFree_preamble {t : CaseTables}
    (h : HTTPServer) (rt : Route) (request : Request) (data : String) :
    barrierFree (h.preamble t rt request data) = true := by
  unfold HTTPServer.preamble HTTPServer.TransmitInputEvent
  cases rt.authorizer <;> cases h.mEventTransmitter <;> rfl

theorem barrierFree_success (h : HTTPServer) (rt : Route) (request : Request)
    (event : Option Event) :
    barrierFree (h.success rt request event).effects = true ∧
    (h.success rt request event).late = [] ∧ (h.success rt request event).crashed = false := by
  simp only [HTTPServer.success]
  split
  · exact ⟨by rw [barrierFree_cons, barrierFree_TransmitOutputEvent]; rfl, rfl, rfl⟩
  · split
    · exact ⟨by rw [barrierFree_cons, barrierFree_TransmitOutputEvent]; rfl, rfl, rfl⟩
    · split
      · refine ⟨?_, rfl, rfl⟩
        simp only []
        rw [barrierFree_append, barrierFree_cons, barrierFree_append,
          barrierFree_TransmitOutputEvent, barrierFree_headers]
        rfl
      · refine ⟨?_, rfl, rfl⟩
        simp only []
        rw [barrierFree_cons, barrierFree_append,
          barrierFree_TransmitOutputEvent, barrierFree_headers]
        rfl

theorem barrierFree_onResult (h : HTTPServer) (rt : Route) (request : Request)
    (r : EventResponse) :
    barrierFree (h.onResult rt request r).effects = true ∧
    (h.onResult rt request r).late = [] ∧ (h.onResult rt request r).crashed = false := by
  unfold HTTPServer.onResult
  split
  · exact ⟨rfl, rfl, rfl⟩
  · split
    · exact ⟨rfl, rfl, rfl⟩
    · split
      · exact ⟨rfl, rfl, rfl⟩
      · exact barrierFree_success h rt request r.Event

theorem barrierFree_dispatch (h : HTTPServer) (rt : Route) (w : World) (request : Request)
    (inputEvent : Event) :
    barrierFree (h.dispatch rt w request inputEvent).effects = true ∧
    barrierFree (h.dispatch rt w request inputEvent).late = true := by
  have hon := fun r => barrierFree_onResult h rt request r
  unfold HTTPServer.dispatch
  simp only []
  split
  · split
    · exact ⟨rfl, rfl⟩
    · rename_i e _ _ _
      obtain ⟨h1, h2, _⟩ := hon { Error := some e, Event := none }
      simp only [Run.wrap, h2]
      rw [barrierFree_append, barrierFree_append, h1]
      exact ⟨rfl, rfl⟩
  · split
    · rename_i event errInner _
      split
      · exact ⟨rfl, rfl⟩
      · obtain ⟨h1, h2, _⟩ := hon { Error := errInner, Event := event }
        simp only [Run.wrap, h2]
        rw [barrierFree_append, barrierFree_append, h1]
        exact ⟨rfl, rfl⟩
    · split
      · exact ⟨rfl, rfl⟩
      · exact ⟨rfl, rfl⟩
    · exact ⟨rfl, rfl⟩

theorem barrierFree_handlerBody {t : CaseTables}
    (h : HTTPServer) (rt : Route) (w : World) (request : Request) :
    barrierFree (h.handlerBody t rt w request).effects = true ∧
    barrierFree (h.handlerBody t rt w request).late = true := by
  have hafter : ∀ md hs, barrierFree (h.afterAuth rt w request md hs).effects = true ∧
      barrierFree (h.afterAuth rt w request md hs).late = true := by
    intro md hs
    unfold HTTPServer.afterAuth
    split
    · exact ⟨rfl, rfl⟩
    · obtain ⟨h1, h2⟩ := barrierFree_dispatch h rt w request
        { Metadata := some md, TypeUrl := GetValue hs "content-type" "application/text",
          Value := by assumption }
      simp only [Run.wrap]
      refine ⟨?_, h2⟩
      rw [barrierFree_append, barrierFree_append, h1, barrierFree_cons]
      unfold HTTPServer.TransmitInputEvent
      cases h.mEventTransmitter <;> rfl
  unfold HTTPServer.handlerBody
  split
  · exact ⟨rfl, rfl⟩
  · simp only []
    split
    · split
      · exact ⟨rfl, rfl⟩
      · obtain ⟨h1, h2⟩ := hafter (h.buildMetadata request)
          (firstValues (fun k => ToLower t (TrimSpace k)) request.Header)
        simp only [Run.wrap]
        refine ⟨?_, h2⟩
        rw [barrierFree_append, barrierFree_append, h1]
        rfl
    · exact hafter _ _

theorem statusIncs_append (a b : List Effect) :
    statusIncs (a ++ b) = statusIncs a ++ statusIncs b := by
  induction a with
  | nil => rfl
  | cons x rest ih => cases x <;> simp [statusIncs, ih]

theorem statusIncs_preamble {t : CaseTables}
    (h : HTTPServer) (rt : Route) (request : Request) (data : String) :
    statusIncs (h.preamble t rt request data) = [] := by
  unfold HTTPServer.preamble HTTPServer.TransmitInputEvent
  cases rt.authorizer <;> cases h.mEventTransmitter <;> rfl

theorem statusIncs_TransmitOutputEvent (h : HTTPServer) (c : String) (ev : Option Event) :
    statusIncs (h.TransmitOutputEvent c ev) = [] := by
  unfold HTTPServer.TransmitOutputEvent
  cases h.mEventTransmitter <;> rfl

theorem lookup_set (m : GoMap) (k v k2 : String) :
    (GoMap.set m k v).lookup k2 = if k2 = k then some v else m.lookup k2 := by
  induction m with
  | nil =>
      by_cases hk : k2 = k
      · simp [GoMap.set, List.lookup, hk]
      · have hb : (k2 == k) = false := by simpa using hk
        simp [GoMap.set, List.lookup, hk, hb]
  | cons kv rest ih =>
      obtain ⟨k0, v0⟩ := kv
      unfold GoMap.set
      by_cases h0 : k0 = k
      · subst h0
        by_cases hk : k2 = k0
        · simp [List.lookup, hk]
        · have hb : (k2 == k0) = false := by simpa using hk
          simp [List.lookup, hk, hb]
      · have h0b : (k0 == k) = false := by simpa using h0
        simp only [h0b, Bool.false_eq_true, if_false]
        by_cases hk0 : k2 = k0
        · subst hk0
          simp [List.lookup, h0]
        · have : (k2 == k0) = false := by simpa using hk0
          simp only [List.lookup, this, ih]

/-- In the map `firstValues` builds, the value under a key is the first value of one of
the entries of the list stored under that key. -/
theorem firstValues_lookup (keyOf : String → String) (l : List (String × List String))
    (key v : String) (hv : (firstValues keyOf l).lookup key = some v) :
    ∃ kv ∈ l, keyOf kv.1 = key ∧ kv.2.head? = some v := by
  have gen : ∀ (l : List (String × List String)) (m : GoMap),
      (l.foldl (fun m kv =>
        match kv.2 with
        | v0 :: _ => GoMap.set m (keyOf kv.1) v0
        | [] => m) m).lookup key = some v →
      m.lookup key = some v ∨ ∃ kv ∈ l, keyOf kv.1 = key ∧ kv.2.head? = some v := by
    intro l
    induction l with
    | nil => intro m hm; exact Or.inl hm
    | cons x rest ih =>
        intro m hm
        rw [List.foldl_cons] at hm
        rcases ih _ hm with hfound | ⟨kv, hkv, hk, hh⟩
        · cases hx : x.2 with
          | nil =>
              rw [hx] at hfound
              exact Or.inl hfound
          | cons v0 vs =>
              rw [hx] at hfound
              simp only [] at hfound
              rw [lookup_set] at hfound
              by_cases hkey : key = keyOf x.1
              · rw [if_pos hkey] at hfound
                refine Or.inr ⟨x, by simp, hkey.symm, ?_⟩
                rw [hx]
                simpa using hfound
              · rw [if_neg hkey] at hfound
                exact Or.inl hfound
        · exact Or.inr ⟨kv, by simp [hkv], hk, hh⟩
  rcases gen l [] hv with hnil | hex
  · simp [List.lookup] at hnil
  · exact hex

/-- The content type the handler gives the input Event when every `Content-Type`
header of the request, if any, has the first value `application/text`. -/
theorem inputEvent_text {t : CaseTables} (h : HTTPServer) (request : Request) (data : String)
    (hct : ∀ kv ∈ request.Header, ToLower t (TrimSpace kv.1) = "content-type" →
      kv.2 = [] ∨ kv.2.head? = some "application/text") :
    h.inputEvent t request data =
      { Metadata := some (h.buildMetadata request), TypeUrl := "application/text",
        Value := data } := by
  unfold HTTPServer.inputEvent GetValue GoMap.get?
  cases hl : (firstValues (fun k => ToLower t (TrimSpace k)) request.Header).lookup "content-type" with
  | none => rfl
  | some v =>
      obtain ⟨kv, hkv, hk, hh⟩ := firstValues_lookup _ _ _ _ hl
      rcases hct kv hkv hk with hnil | hsome
      · rw [hnil] at hh
        simp at hh
      · rw [hsome] at hh
        simp only [Option.some.injEq] at hh
        rw [← hh]

theorem ctxErr_of_early (h : HTTPServer) (w : World) (hlt : w.serveTime < h.nCtxDoneAt w) :
    w.ctxErr = none := by
  unfold World.ctxErr
  unfold HTTPServer.nCtxDoneAt at hlt
  cases hc : w.ctxDoneAt with
  | none => rfl
  | some p =>
      obtain ⟨t, e⟩ := p
      rw [hc] at hlt
      cases t with
      | zero => simp at hlt
      | succ n => rfl

/-- The trace of an admitted request whose Service returns before `nCtx` is done. -/
theorem requestHandler_served {t : CaseTables}
    (h : HTTPServer) (rt : Route) (w : World) (request : Request)
    (data : String) (ev : Option Event) (err : Option GoError)
    (hadm : rt.admits h request = true) (hbody : w.readAll = .ok data)
    (hs : rt.service.Serve (h.inputEvent t request data) = .returns ev err)
    (hlt : w.serveTime < h.nCtxDoneAt w) :
    h.handlerBody t rt w request =
      (h.onResult rt request { Error := err, Event := ev }).wrap
        (h.preamble t rt request data ++
          [.Serve (h.inputEvent t request data), .chSend { Error := err, Event := ev } false,
           .chRecv { Error := err, Event := ev }])
        [.cancel] := by
  rw [handlerBody_admitted h rt w request data hadm hbody]
  unfold HTTPServer.dispatch
  simp only [ctxErr_of_early h w hlt, hs, selectCase_early _ _ w.pick hlt]
  simp [Run.wrap, Chan.full, Chan.make]


theorem String_append_assoc (a b c : String) : a ++ b ++ c = a ++ (b ++ c) := by
  cases a; cases b; cases c
  show String.mk _ = String.mk _
  simp [String.append, List.append_assoc]

theorem HeaderGet_eq_empty_iff (request : Request) (key : String) :
    (request.HeaderGet key).length = 0 ↔ request.HeaderGet key = "" :=
  String_length_eq_zero _

theorem getLanguage_eq_spec (h : HTTPServer) (request : Request) :
    h.getLanguage request = specLanguage request := by
  unfold HTTPServer.getLanguage specLanguage Request.HeaderGet
  cases request.Header.lookup "Accept-Language" with
  | none => rfl
  | some vs =>
      cases vs with
      | nil => rfl
      | cons v rest =>
          simp only [String_length_eq_zero]

theorem getMessage_eq_spec (h : HTTPServer) (c : Nat) (d lang : String) :
    h.getMessage ("s" ++ fmtD c ++ "m") d lang = specMessage h.mValues c d lang := by
  unfold HTTPServer.getMessage specMessage ConfigMap.String
  have hkey : "s" ++ fmtD c ++ "m" ++ "_" ++ lang = "s" ++ fmtD c ++ "m_" ++ lang := by
    rw [String_append_assoc ("s" ++ fmtD c) "m" "_"]
    rfl
  simp only [hkey, String_length_eq_zero]
  cases h.mValues.lookup ("s" ++ fmtD c ++ "m_" ++ lang) with
  | none => simp
  | some v =>
      by_cases hv : v = ""
      · simp [hv]
      · simp [hv]


/-- The map `firstValues` builds holds, under the key of an entry with at least one
value, the first value of that entry, when no other entry with a value has that key. -/
theorem firstValues_get (keyOf : String → String) (l : List (String × List String))
    (hinj : ∀ a ∈ l, ∀ b ∈ l, a.2 ≠ [] → b.2 ≠ [] → keyOf a.1 = keyOf b.1 → a = b) :
    ∀ kv ∈ l, ∀ v vs, kv.2 = v :: vs → (firstValues keyOf l).lookup (keyOf kv.1) = some v := by
  induction l using List.reverseRecOn with
  | nil => intro kv hkv; cases hkv
  | append_singleton l x ih =>
      intro kv hkv v vs hv
      have hstep : firstValues keyOf (l ++ [x]) =
          match x.2 with
          | v0 :: _ => GoMap.set (firstValues keyOf l) (keyOf x.1) v0
          | [] => firstValues keyOf l := by
        unfold firstValues
        rw [List.foldl_append]
        rfl
      have ih2 := ih (fun a ha b hb => hinj a (by simp [ha]) b (by simp [hb]))
      rw [hstep]
      rw [List.mem_append, List.mem_singleton] at hkv
      cases hx : x.2 with
      | nil =>
          simp only []
          rcases hkv with hkv | hkv
          · exact ih2 kv hkv v vs hv
          · rw [hkv, hx] at hv
            cases hv
      | cons v0 rest =>
          simp only []
          rw [lookup_set]
          by_cases hk : keyOf kv.1 = keyOf x.1
          · rw [if_pos hk]
            have hkvne : kv.2 ≠ [] := by rw [hv]; simp
            have hxne : x.2 ≠ [] := by rw [hx]; simp
            have hmem : kv ∈ l ++ [x] := by
              rw [List.mem_append, List.mem_singleton]; exact hkv
            have := hinj kv hmem x (by simp) hkvne hxne hk
            rw [this, hx] at hv
            simp only [List.cons.injEq] at hv
            rw [hv.1]
          · rw [if_neg hk]
            rcases hkv with hkv | hkv
            · exact ih2 kv hkv v vs hv
            · rw [hkv] at hk
              exact absurd rfl hk

/-- Distinct keys make the key function `id` injective on the entries. -/
theorem inj_of_nodup_keys (l : List (String × List String))
    (hnd : (l.map Prod.fst).Nodup) :
    ∀ a ∈ l, ∀ b ∈ l, a.2 ≠ [] → b.2 ≠ [] → id a.1 = id b.1 → a = b := by
  intro a ha b hb _ _ hab
  exact List.inj_on_of_nodup_map hnd ha hb hab

/-- With distinct keys, a key whose value list is empty is absent from the map. -/
theorem firstValues_absent (l : List (String × List String))
    (hnd : (l.map Prod.fst).Nodup) (k : String) (hk : (k, []) ∈ l) :
    (firstValues id l).lookup k = none := by
  cases hl : (firstValues id l).lookup k with
  | none => rfl
  | some v =>
      obtain ⟨kv, hkv, hkey, hhead⟩ := firstValues_lookup id l k v hl
      have : kv = (k, []) := List.inj_on_of_nodup_map hnd hkv hk hkey
      rw [this] at hhead
      simp at hhead

theorem toUpper_eq_comma (c : Char) : (Char.toUpper c = ',') ↔ c = ',' := by
  constructor
  · intro hu
    unfold Char.toUpper at hu
    simp only [] at hu
    split at hu
    · rename_i hr
      exfalso
      obtain ⟨h1, h2⟩ := hr
      have h1n : 97 ≤ c.val.toNat := h1
      have h2n : c.val.toNat ≤ 122 := h2
      have hval : (Char.ofNat (c.val.toNat - 32)) = ',' := hu
      generalize c.val.toNat = n at h1n h2n hval
      interval_cases n <;> revert hval <;> decide
    · exact hu
  · intro hc
    subst hc
    decide

theorem unicodeToUpper_comma (t : CaseTables) : unicodeToUpper t ',' = ',' := by
  rfl

/-- A mapping of characters that neither makes nor removes a comma commutes with the
split on commas. -/
theorem splitGo_comma_map (f : Char → Char) (hf : ∀ c, f c = ',' ↔ c = ',')
    (s cur : List Char) :
    splitGo [','] (s.map f) 0 (cur.map f) =
      (splitGo [','] s 0 cur).map (List.map f) := by
  induction s generalizing cur with
  | nil => simp [splitGo]
  | cons c cs ih =>
      simp only [List.map_cons]
      unfold splitGo
      by_cases hc : c = ','
      · subst hc
        have hu : f ',' = ',' := (hf ',').mpr rfl
        simp only [hu, List.isPrefixOf, beq_self_eq_true, Bool.and_true, if_true,
          List.length_singleton, Nat.sub_self, List.map_cons, List.map_reverse]
        have := ih []
        simp only [List.map_nil] at this
        rw [this]
      · have hcu : ¬ f c = ',' := fun hh => hc ((hf c).mp hh)
        have h1 : (',' == f c) = false := by
          simpa using fun hh => hcu hh.symm
        have h2 : (',' == c) = false := by
          simpa using fun hh => hc hh.symm
        simp only [List.isPrefixOf, h1, h2, Bool.false_and, Bool.false_eq_true, if_false]
        have := ih (c :: cur)
        simp only [List.map_cons] at this
        exact this

theorem Split_ToUpper {t : CaseTables} (hcomma : t.keepsComma) (s : String) :
    Split (ToUpper t s) "," = (Split s ",").map (ToUpper t) := by
  unfold Split ToUpper
  have hsep : (",".data = []) = False := by simp
  simp only [hsep, if_false]
  have hf : ∀ c, unicodeToUpper t c = ',' ↔ c = ',' := by
    intro c
    constructor
    · exact hcomma c
    · intro hc
      rw [hc]
      exact unicodeToUpper_comma t
  have := splitGo_comma_map (unicodeToUpper t) hf s.data []
  simp only [List.map_nil] at this
  rw [this, List.map_map, List.map_map]
  rfl

/-- The membership test on the method list of `routeOf`, in terms of the entries of the
trimmed, upper-cased method string. -/
theorem routeOf_accepts_iff {t : CaseTables} (authorizer : Option Authorizer) (expr : String)
    (tv : ConfigMap) (service : Service) (r : String) :
    IsIn (routeOf t authorizer expr tv service).methodList r = true ↔
      r ∈ Split (ToUpper t (TrimSpace (ConfigMap.String tv "method" ""))) "," := by
  rw [IsIn_iff]
  show r ∈ sortStrings (declaredMethods t tv) ↔ _
  rw [mem_sortStrings]
  rfl

/-- The entries of the upper-cased method string are the upper-cased entries of the
method string, when upper-casing neither makes nor removes a comma. -/
theorem declared_entries {t : CaseTables} (hcomma : t.keepsComma) (m r : String) :
    r ∈ Split (ToUpper t m) "," ↔ ∃ e ∈ Split m ",", r = ToUpper t e := by
  rw [Split_ToUpper hcomma, List.mem_map]
  constructor
  · rintro ⟨e, he, heq⟩
    exact ⟨e, he, heq.symm⟩
  · rintro ⟨e, he, heq⟩
    exact ⟨e, he, heq.symm⟩

/-- A request that passes the method check does not get the trace of the 405 answer. -/
theorem requestHandler_405_iff {t : CaseTables}
    (h : HTTPServer) (rt : Route) (w : World) (request : Request) :
    h.requestHandler t rt w request = h.s405m request none ↔
      IsIn rt.methodList request.Method = false := by
  constructor
  · intro htrace
    cases hm : IsIn rt.methodList request.Method with
    | false => rfl
    | true =>
        exfalso
        rw [s405m_eq] at htrace
        cases ha : rt.authorizer with
        | some a =>
            obtain ⟨rest, hrest⟩ := requestHandler_head h rt w request a ha hm
            rw [hrest] at htrace
            simp at htrace
        | none =>
            have hhead : ∃ rest, h.requestHandler t rt w request = .ReadAll :: rest := by
              unfold HTTPServer.requestHandler
              simp only [HTTPServer.handlerBody, hm, ha, HTTPServer.afterAuth]
              simp only [Bool.not_true, Bool.false_eq_true, if_false]
              cases w.readAll with
              | error e => exact ⟨_, rfl⟩
              | ok data =>
                  simp only [Run.wrap]
                  split
                  · exact ⟨_, rfl⟩
                  · split <;> exact ⟨_, rfl⟩
            obtain ⟨rest, hrest⟩ := hhead
            rw [hrest] at htrace
            simp at htrace
  · intro hm
    exact handler_405 h rt w request hm

theorem String_eq_empty_iff (tv : ConfigMap) (key : String) :
    ConfigMap.String tv key "" = "" ↔ (tv.lookup key = none ∨ tv.lookup key = some "") := by
  unfold ConfigMap.String
  cases tv.lookup key with
  | none => simp
  | some o => simp

/-- The result of `AddService`, case by case. -/
theorem AddService_eq {t : CaseTables}
    (h : HTTPServer) (authorizer : Option Authorizer) (expr : String)
    (tv : ConfigMap) (service : Service) :
    h.AddService t authorizer expr tv service =
      if ConfigMap.String tv "method" "" = "" then .error (.error ErrMethodNotDefined)
      else if ConfigMap.String tv "path" "" = "" then .error (.error ErrPathNotDefined)
      else
        match h.mHttpServerMux with
        | none =>
            .error (.panic "runtime error: invalid memory address or nil pointer dereference")
        | some mux =>
            if TrimSpace (ConfigMap.String tv "path" "") = "" then
              .error (.panic "http: invalid pattern")
            else if mux.entries.any (fun e => e.1 == TrimSpace (ConfigMap.String tv "path" "")) then
              .error (.panic ("http: multiple registrations for " ++
                TrimSpace (ConfigMap.String tv "path" "")))
            else
              .ok (h.withHandler mux (TrimSpace (ConfigMap.String tv "path" ""))
                (.requestHandler (routeOf t authorizer expr tv service))) := by
  unfold HTTPServer.AddService
  simp only [String_length_eq_zero]
  by_cases hm : ConfigMap.String tv "method" "" = ""
  · simp only [hm, if_true]
  · simp only [hm, if_false]
    by_cases hp : ConfigMap.String tv "path" "" = ""
    · simp only [hp, if_true]
    · simp only [hp, if_false]
      cases h.mHttpServerMux with
      | none => rfl
      | some mux =>
          simp only [ServeMux.Handle]
          by_cases ht : TrimSpace (ConfigMap.String tv "path" "") = ""
          · simp only [ht, if_true]
            rfl
          · simp only [ht, if_false]
            have hml : (if (Split (ToUpper t (TrimSpace (ConfigMap.String tv "method" ""))) ",").length > 0
                then sortStrings (Split (ToUpper t (TrimSpace (ConfigMap.String tv "method" ""))) ",")
                else Split (ToUpper t (TrimSpace (ConfigMap.String tv "method" ""))) ",") =
                sortStrings (Split (ToUpper t (TrimSpace (ConfigMap.String tv "method" ""))) ",") := by
              cases hs : Split (ToUpper t (TrimSpace (ConfigMap.String tv "method" ""))) "," with
              | nil => rfl
              | cons a b => simp
            rw [hml]
            cases hany : mux.entries.any
                (fun e => e.1 == TrimSpace (ConfigMap.String tv "path" "")) with
            | true => rfl
            | false => rfl

theorem atoiLoop_none (IntSize : Nat) (convert : Int → Int) (l : List String)
    (acc : List Int) (hbad : ∃ p ∈ l, Atoi IntSize p = none) :
    atoiLoop IntSize convert l acc = none := by
  induction l generalizing acc with
  | nil =>
      obtain ⟨p, hp, _⟩ := hbad
      cases hp
  | cons x rest ih =>
      unfold atoiLoop
      cases hx : Atoi IntSize x with
      | none => rfl
      | some i =>
          simp only []
          apply ih
          obtain ⟨p, hp, hnone⟩ := hbad
          rw [List.mem_cons] at hp
          rcases hp with hp | hp
          · rw [hp, hx] at hnone
            cases hnone
          · exact ⟨p, hp, hnone⟩

theorem atoiLoop_some (IntSize : Nat) (convert : Int → Int) (l : List String)
    (acc values : List Int) (hall : l.map (Atoi IntSize) = values.map some) :
    atoiLoop IntSize convert l acc = some (acc ++ values.map convert) := by
  induction l generalizing acc values with
  | nil =>
      cases values with
      | nil => simp [atoiLoop]
      | cons a b => simp at hall
  | cons x rest ih =>
      cases values with
      | nil => simp at hall
      | cons a b =>
          simp only [List.map_cons, List.cons.injEq] at hall
          unfold atoiLoop
          rw [hall.1]
          simp only []
          rw [ih (acc ++ [convert a]) b hall.2]
          simp

/-- An accessor built on `atoiLoop` is all-or-nothing. -/
theorem allOrNothing_of_loop (IntSize : Nat) (convert : Int → Int)
    (accessor : ConfigMap → String → String → List Int → List Int)
    (hacc : ∀ v k sep d, accessor v k sep d =
      match v.lookup k with
      | some o =>
          match atoiLoop IntSize convert (Split o sep) [] with
          | some result => result
          | none => d
      | none => d) :
    AllOrNothing IntSize convert accessor := by
  intro v k sep o d hk
  constructor
  · intro hbad
    rw [hacc, hk]
    simp only [atoiLoop_none IntSize convert _ [] hbad]
  · intro values hall
    rw [hacc, hk]
    simp only [atoiLoop_some IntSize convert _ [] values hall, List.nil_append]

theorem toSigned_spec (w : Nat) (hw : 0 < w) (i : Int) :
    -(2 ^ (w - 1) : Int) ≤ toSigned w i ∧ toSigned w i < (2 ^ (w - 1) : Int) ∧
      (toSigned w i - i) % (2 ^ w : Int) = 0 := by
  have hpow : (2 ^ w : Int) = 2 * 2 ^ (w - 1) := by
    obtain ⟨n, hn⟩ : ∃ n, w = n + 1 := ⟨w - 1, by omega⟩
    subst hn
    simp [pow_succ, mul_comm]
  have hpos : (0 : Int) < 2 ^ (w - 1) := by positivity
  have hm0 : 0 ≤ i % (2 ^ w : Int) := Int.emod_nonneg _ (by positivity)
  have hm1 : i % (2 ^ w : Int) < 2 ^ w := Int.emod_lt_of_pos _ (by positivity)
  unfold toSigned
  simp only []
  split
  · rename_i hlt
    refine ⟨by omega, hlt, ?_⟩
    rw [Int.sub_emod, Int.emod_emod_of_dvd _ (dvd_refl _), ← Int.sub_emod]
    simp
  · rename_i hge
    refine ⟨by omega, by omega, ?_⟩
    have : i % (2 ^ w : Int) - 2 ^ w - i = (i % (2 ^ w : Int) - i) - 2 ^ w := by ring
    rw [this, Int.sub_emod, Int.emod_self, sub_zero, Int.emod_emod_of_dvd _ (dvd_refl _),
      Int.sub_emod, Int.emod_emod_of_dvd _ (dvd_refl _), ← Int.sub_emod]
    simp

theorem toUnsigned_spec (w : Nat) (i : Int) :
    0 ≤ toUnsigned w i ∧ toUnsigned w i < (2 ^ w : Int) ∧
      (toUnsigned w i - i) % (2 ^ w : Int) = 0 := by
  unfold toUnsigned
  refine ⟨Int.emod_nonneg _ (by positivity), Int.emod_lt_of_pos _ (by positivity), ?_⟩
  rw [Int.sub_emod, Int.emod_emod_of_dvd _ (dvd_refl _), ← Int.sub_emod]
  simp

/-- On a request without headers the handler does not consult the case tables. -/
theorem handlerBody_no_header (t t2 : CaseTables) (h : HTTPServer) (rt : Route) (w : World)
    (request : Request) (hh : request.Header = []) :
    h.handlerBody t rt w request = h.handlerBody t2 rt w request := by
  unfold HTTPServer.handlerBody
  rw [hh]
  rfl

theorem requestHandler_echoRequest (t : CaseTables) (h : HTTPServer) (rt : Route) (w : World)
    (m : String) :
    h.requestHandler t rt w (echoRequest m) = h.requestHandler asciiOnly rt w (echoRequest m) := by
  unfold HTTPServer.requestHandler
  rw [handlerBody_no_header t asciiOnly h rt w (echoRequest m) rfl]

theorem inputEvent_echoRequest (t : CaseTables) (h : HTTPServer) (m data : String) :
    h.inputEvent t (echoRequest m) data = h.inputEvent asciiOnly (echoRequest m) data := by
  rfl

theorem preamble_echoRequest (t : CaseTables) (h : HTTPServer) (rt : Route) (m data : String) :
    h.preamble t rt (echoRequest m) data = h.preamble asciiOnly rt (echoRequest m) data := by
  rfl

/-- The route of `echoTrigger` has the method list `GET`, whatever the case tables. -/
theorem routeOf_echoTrigger (t : CaseTables) (authorizer : Option Authorizer) (expr : String)
    (service : Service) :
    routeOf t authorizer expr echoTrigger service =
      routeOf asciiOnly authorizer expr echoTrigger service := by
  rfl

theorem asciiOnly_keepsComma : asciiOnly.keepsComma := by
  intro c hc
  unfold unicodeToUpper at hc
  split at hc
  · exact (toUpper_eq_comma c).mp hc
  · exact hc

theorem toNat_ofNat_ascii (n : Nat) (h : n < 128) : (Char.ofNat n).toNat = n := by
  interval_cases n <;> rfl

theorem char_eq_of_toNat (a b : Char) (h : a.toNat = b.toNat) : a = b := by
  rw [← Char.ofNat_toNat a, ← Char.ofNat_toNat b, h]

theorem toNat_toLower (c : Char) (h : c.toNat < 128) :
    c.toLower.toNat = if 65 ≤ c.toNat ∧ c.toNat ≤ 90 then c.toNat + 32 else c.toNat := by
  unfold Char.toLower
  simp only [ge_iff_le]
  split
  · exact toNat_ofNat_ascii _ (by omega)
  · rfl

theorem toNat_toUpper (c : Char) (h : c.toNat < 128) :
    c.toUpper.toNat = if 97 ≤ c.toNat ∧ c.toNat ≤ 122 then c.toNat - 32 else c.toNat := by
  unfold Char.toUpper
  simp only [ge_iff_le]
  split
  · exact toNat_ofNat_ascii _ (by omega)
  · rfl

theorem isTokenChar_ascii (c : Char) (h : isTokenChar c = true) :
    c.toNat < 128 ∧ isSpace c = false := by
  unfold isTokenChar at h
  unfold isSpace
  simp only [Bool.or_eq_true, Bool.and_eq_true, decide_eq_true_eq, beq_iff_eq] at h
  simp only [Bool.or_eq_false_iff, Bool.and_eq_false_iff, decide_eq_false_iff_not,
    beq_eq_false_iff_ne, ne_eq]
  omega

theorem dropWhile_isSpace_token (l : List Char) (h : l.all isTokenChar = true) :
    l.dropWhile isSpace = l := by
  cases l with
  | nil => rfl
  | cons c rest =>
      rw [List.all_cons, Bool.and_eq_true] at h
      rw [List.dropWhile_cons, (isTokenChar_ascii c h.1).2]
      rfl

/-- A name of token characters has no white space to trim. -/
theorem TrimSpace_token (k : String) (h : k.data.all isTokenChar = true) : TrimSpace k = k := by
  unfold TrimSpace
  rw [dropWhile_isSpace_token k.data h]
  have hr : k.data.reverse.all isTokenChar = true := by
    rw [List.all_reverse]
    exact h
  rw [dropWhile_isSpace_token k.data.reverse hr, List.reverse_reverse]

/-- On ASCII characters `strings.ToLower` does not consult the case tables. -/
theorem ToLower_ascii (t : CaseTables) (k : String) (h : ∀ c ∈ k.data, c.toNat < 128) :
    ToLower t k = String.mk (k.data.map Char.toLower) := by
  unfold ToLower
  congr 1
  apply List.map_congr_left
  intro c hc
  unfold unicodeToLower
  have := h c hc
  rw [if_pos (by omega)]

/-- Two names in canonical form with the same lower-cased form are the same name. -/
theorem canonicalMIME_inj (l1 : List Char) :
    ∀ (l2 : List Char) (u : Bool), l1.all isTokenChar = true → l2.all isTokenChar = true →
      canonicalMIME l1 u = l1 → canonicalMIME l2 u = l2 →
      l1.map Char.toLower = l2.map Char.toLower → l1 = l2 := by
  induction l1 with
  | nil =>
      intro l2 u _ _ _ _ hl
      cases l2 with
      | nil => rfl
      | cons c r => simp at hl
  | cons c1 r1 ih =>
      intro l2 u h1 h2 hc1 hc2 hl
      cases l2 with
      | nil => simp at hl
      | cons c2 r2 =>
          rw [List.all_cons, Bool.and_eq_true] at h1 h2
          simp only [List.map_cons, List.cons.injEq] at hl
          simp only [canonicalMIME, List.cons.injEq] at hc1 hc2
          have a1 := (isTokenChar_ascii c1 h1.1).1
          have a2 := (isTokenChar_ascii c2 h2.1).1
          have hlow := congrArg Char.toNat hl.1
          rw [toNat_toLower c1 a1, toNat_toLower c2 a2] at hlow
          have hceq : c1 = c2 := by
            apply char_eq_of_toNat
            cases u with
            | true =>
                have e1 := congrArg Char.toNat hc1.1
                have e2 := congrArg Char.toNat hc2.1
                simp only [if_true] at e1 e2
                rw [toNat_toUpper c1 a1] at e1
                rw [toNat_toUpper c2 a2] at e2
                split_ifs at e1 e2 hlow <;> omega
            | false =>
                have e1 := congrArg Char.toNat hc1.1
                have e2 := congrArg Char.toNat hc2.1
                simp only [Bool.false_eq_true, if_false] at e1 e2
                rw [toNat_toLower c1 a1] at e1
                rw [toNat_toLower c2 a2] at e2
                split_ifs at e1 e2 hlow <;> omega
          subst hceq
          rw [hc1.1] at hc1
          rw [hc2.1] at hc2
          rw [ih r2 (c1 == '-') h1.2 h2.2 hc1.2 hc2.2 hl.2]

/-- On the names the server hands to a handler, lower-casing and trimming loses
nothing: two such names with the same lower-cased, trimmed form are the same name. -/
theorem headerKey_inj (t : CaseTables) (k1 k2 : String)
    (h1 : ValidHeaderFieldName k1 = true ∧ CanonicalMIMEHeaderKey k1 = k1)
    (h2 : ValidHeaderFieldName k2 = true ∧ CanonicalMIMEHeaderKey k2 = k2)
    (h : headerKey t k1 = headerKey t k2) : k1 = k2 := by
  obtain ⟨v1, c1⟩ := h1
  obtain ⟨v2, c2⟩ := h2
  unfold ValidHeaderFieldName at v1 v2
  rw [Bool.and_eq_true] at v1 v2
  have t1 := v1.2
  have t2 := v2.2
  unfold CanonicalMIMEHeaderKey at c1 c2
  rw [if_pos t1] at c1
  rw [if_pos t2] at c2
  have d1 : canonicalMIME k1.data true = k1.data := congrArg String.data c1
  have d2 : canonicalMIME k2.data true = k2.data := congrArg String.data c2
  have a1 : ∀ c ∈ k1.data, c.toNat < 128 := fun c hc =>
    (isTokenChar_ascii c (List.all_eq_true.mp t1 c hc)).1
  have a2 : ∀ c ∈ k2.data, c.toNat < 128 := fun c hc =>
    (isTokenChar_ascii c (List.all_eq_true.mp t2 c hc)).1
  unfold headerKey at h
  rw [TrimSpace_token k1 t1, TrimSpace_token k2 t2, ToLower_ascii t k1 a1,
    ToLower_ascii t k2 a2] at h
  have hd : k1.data.map Char.toLower = k2.data.map Char.toLower := congrArg String.data h
  have := canonicalMIME_inj k1.data k2.data true t1 t2 d1 d2 hd
  cases k1
  cases k2
  simp only at this
  rw [this]

/-- The value the map `firstValues` builds holds under a key: the first value of the
entry visited last among the entries that have a value and are filed under that key. -/
theorem firstValues_lookup_last (keyOf : String → String) (l : List (String × List String))
    (key : String) :
    (firstValues keyOf l).lookup key =
      ((l.filter (fun kv => !kv.2.isEmpty && keyOf kv.1 == key)).getLast?).bind
        (fun kv => kv.2.head?) := by
  induction l using List.reverseRecOn with
  | nil => rfl
  | append_singleton l x ih =>
      have hstep : firstValues keyOf (l ++ [x]) =
          match x.2 with
          | v0 :: _ => GoMap.set (firstValues keyOf l) (keyOf x.1) v0
          | [] => firstValues keyOf l := by
        unfold firstValues
        rw [List.foldl_append]
        rfl
      rw [hstep, List.filter_append]
      cases hx : x.2 with
      | nil =>
          simp only []
          have : List.filter (fun kv => !kv.2.isEmpty && keyOf kv.1 == key) [x] = [] := by
            simp [List.filter, hx]
          rw [this, List.append_nil]
          exact ih
      | cons v0 rest =>
          simp only []
          rw [lookup_set]
          by_cases hk : key = keyOf x.1
          · rw [if_pos hk]
            have : List.filter (fun kv => !kv.2.isEmpty && keyOf kv.1 == key) [x] = [x] := by
              simp [List.filter, hx, hk]
            rw [this, List.getLast?_concat]
            simp [hx]
          · rw [if_neg hk]
            have hk2 : ¬ keyOf x.1 = key := fun hh => hk hh.symm
            have hb : (keyOf x.1 == key) = false := by simpa using hk2
            have : List.filter (fun kv => !kv.2.isEmpty && keyOf kv.1 == key) [x] = [] := by
              simp [List.filter, hx, hb]
            rw [this, List.append_nil]
            exact ih

theorem servedRequest_headerAsServed : servedRequest.headerAsServed := by
  intro kv hkv
  simp only [servedRequest, List.mem_cons, List.mem_singleton, List.not_mem_nil, or_false] at hkv
  rcases hkv with hkv | hkv <;> subst hkv <;> decide

theorem IsInGeneric_true_iff {T : Type} [Comparable T] (l : List T) (v : T) :
    IsInGeneric l v = some true ↔
      ∃ front x back, l = front ++ x :: back ∧ Comparable.equal x v = some true ∧
        ∀ y ∈ front, Comparable.equal y v = some false := by
  induction l with
  | nil =>
      constructor
      · intro h
        simp [IsInGeneric] at h
      · rintro ⟨front, x, back, hl, _, _⟩
        simp at hl
  | cons a rest ih =>
      unfold IsInGeneric
      cases hav : Comparable.equal a v with
      | none =>
          simp only []
          constructor
          · intro h
            cases h
          · rintro ⟨front, x, back, hl, hx, hfront⟩
            cases front with
            | nil =>
                simp only [List.nil_append, List.cons.injEq] at hl
                rw [hl.1, hx] at hav
                cases hav
            | cons y ys =>
                simp only [List.cons_append, List.cons.injEq] at hl
                have := hfront y (by simp)
                rw [← hl.1, hav] at this
                cases this
      | some b =>
          cases b with
          | true =>
              simp only []
              constructor
              · intro _
                exact ⟨[], a, rest, rfl, hav, by simp⟩
              · intro _
                trivial
          | false =>
              simp only []
              rw [ih]
              constructor
              · rintro ⟨front, x, back, hl, hx, hfront⟩
                refine ⟨a :: front, x, back, by rw [hl]; rfl, hx, ?_⟩
                intro y hy
                rw [List.mem_cons] at hy
                rcases hy with hy | hy
                · rw [hy]; exact hav
                · exact hfront y hy
              · rintro ⟨front, x, back, hl, hx, hfront⟩
                cases front with
                | nil =>
                    simp only [List.nil_append, List.cons.injEq] at hl
                    rw [hl.1, hx] at hav
                    cases hav
                | cons y ys =>
                    simp only [List.cons_append, List.cons.injEq] at hl
                    refine ⟨ys, x, back, hl.2, hx, ?_⟩
                    intro z hz
                    exact hfront z (by simp [hz])

theorem IsInGeneric_identity {T : Type} [Comparable T] (hid : Comparable.isIdentity T)
    (l : List T) (v : T) :
    (IsInGeneric l v = some true ↔ v ∈ l) ∧ (IsInGeneric l v = some false ↔ ¬ v ∈ l) := by
  induction l with
  | nil => simp [IsInGeneric]
  | cons a rest ih =>
      unfold IsInGeneric
      rcases hid a v with ⟨he, heq⟩ | ⟨he, hne⟩
      · rw [he]
        simp [heq]
      · rw [he]
        have hva : ¬ v = a := fun hh => hne hh.symm
        simp only [List.mem_cons, hva, false_or]
        exact ih

theorem isIdentity_string : Comparable.isIdentity String := by
  intro a b
  show (some (a == b) = some true ∧ a = b) ∨ (some (a == b) = some false ∧ a ≠ b)
  by_cases h : a = b
  · exact Or.inl ⟨by simp [h], h⟩
  · exact Or.inr ⟨by simp [h], h⟩

theorem isIdentity_integer : Comparable.isIdentity Int := by
  intro a b
  show (some (a == b) = some true ∧ a = b) ∨ (some (a == b) = some false ∧ a ≠ b)
  by_cases h : a = b
  · exact Or.inl ⟨by simp [h], h⟩
  · exact Or.inr ⟨by simp [h], h⟩

/-! ## The claims -/

/-- C1: the handler of a route registered through `AddService` with method string `m`
answers a request whose method is not in the method list (the trimmed, upper-cased `m`
split on commas) with status 405: the 405 counter, the content type, the status and the
405 message are all it does, so the Authorizer is not evaluated, the body is not read,
no input event is transmitted and the Service is not invoked. -/
theorem C1_method_outside_declared_set_gives_405 (t : CaseTables)
    (h h2 : HTTPServer) (authorizer : Option Authorizer) (expr : String)
    (tv : ConfigMap) (service : Service)
    (hadd : h.AddService t authorizer expr tv service = .ok h2) :
    (∃ mux2 : ServeMux, h2.mHttpServerMux = some mux2 ∧
      ∃ front, mux2.entries = front ++ [(TrimSpace (ConfigMap.String tv "path" ""),
        Handler.requestHandler (routeOf t authorizer expr tv service))]) ∧
    ∀ (hs : HTTPServer) (w : World) (request : Request),
      request.Method ∉ Split (ToUpper t (TrimSpace (ConfigMap.String tv "method" ""))) "," →
        hs.requestHandler t (routeOf t authorizer expr tv service) w request =
          [.responseStatusInc request.Path "405",
           .HeaderAdd "Content-Type" hs.mDefaultContentType,
           .WriteHeader 405,
           .Write (hs.getMessage "s405m" hs.d405m (hs.getLanguage request))] ∧
        statusCodes (hs.requestHandler t (routeOf t authorizer expr tv service) w request) =
          [405] ∧
        ∀ e ∈ hs.requestHandler t (routeOf t authorizer expr tv service) w request,
          e.pastMethodCheck = false := by
  obtain ⟨mux, _, _, _, _, _, h2eq⟩ := AddService_ok h h2 authorizer expr tv service hadd
  refine ⟨⟨_, by rw [h2eq]; rfl, mux.entries, rfl⟩, ?_⟩
  intro hs w request hnot
  have hm : IsIn (routeOf t authorizer expr tv service).methodList request.Method = false := by
    cases hin : IsIn (routeOf t authorizer expr tv service).methodList request.Method with
    | false => rfl
    | true =>
        exfalso
        apply hnot
        have := (IsIn_iff _ _).mp hin
        exact (mem_sortStrings _ _).mp this
  rw [handler_405 hs _ w request hm, s405m_eq]
  refine ⟨rfl, rfl, ?_⟩
  intro e he
  simp at he
  rcases he with he | he | he | he <;> subst he <;> rfl

/-- Witness for C1: the `/echo` route declared for `get`, asked with POST.  With the
table entry of Unicode for the long s, the route declared for `poſt` has POST in its
method list and serves a POST request. -/
theorem C1_method_outside_declared_set_gives_405_witness :
    exampleServer.AddService asciiOnly none "" echoTrigger Echo =
        .ok (exampleServer.withHandler (ServeMux.mk [("/", .default404)]) "/echo"
          (.requestHandler (routeOf asciiOnly none "" echoTrigger Echo))) ∧
      statusCodes (exampleServer.requestHandler asciiOnly
        (routeOf asciiOnly none "" echoTrigger Echo) calmWorld (echoRequest "POST")) = [405] ∧
      statusCodes (exampleServer.requestHandler latinSample
        (routeOf latinSample none "" [("method", "poſt"), ("path", "/echo")] Echo) calmWorld
        (echoRequest "POST")) = [200] :=
  ⟨rfl,
   ((C1_method_outside_declared_set_gives_405 asciiOnly exampleServer _ none "" echoTrigger
      Echo rfl).2 exampleServer calmWorld (echoRequest "POST") (by decide)).2.1,
   by decide⟩

/-- C2: on a route with an Authorizer attached, a request for which `IsAuthorized`
returns false never reaches `TransmitInputEvent` nor the start of `Serve`; and in every
run, whatever precedes a `TransmitInputEvent` or the start of `Serve` contains the
evaluation of the Authorizer, which returned true. -/
theorem C2_denied_request_never_reaches_service (t : CaseTables)
    (h : HTTPServer) (rt : Route) (w : World) (request : Request)
    (a : Authorizer) (ha : rt.authorizer = some a) :
    (a.IsAuthorized rt.authorizerExpression (h.buildMetadata request) = false →
      ∀ e ∈ h.requestHandler t rt w request, e.handsOn = false) ∧
    (∀ (pre post : List Effect) (e : Effect),
      h.requestHandler t rt w request = pre ++ e :: post → e.handsOn = true →
        a.IsAuthorized rt.authorizerExpression (h.buildMetadata request) = true ∧
        Effect.IsAuthorized rt.authorizerExpression (h.buildMetadata request) ∈ pre) := by
  have hnone : ∀ e ∈ h.requestHandler t rt w request,
      (IsIn rt.methodList request.Method = false ∨
        a.IsAuthorized rt.authorizerExpression (h.buildMetadata request) = false) →
      e.handsOn = false := by
    intro e he hcase
    cases hm : IsIn rt.methodList request.Method with
    | false =>
        rw [handler_405 h rt w request hm, s405m_eq] at he
        simp at he
        rcases he with he | he | he | he <;> subst he <;> rfl
    | true =>
        have hd : a.IsAuthorized rt.authorizerExpression (h.buildMetadata request) = false := by
          rcases hcase with hc | hc
          · rw [hm] at hc; exact absurd hc (by decide)
          · exact hc
        rw [requestHandler_denied h rt w request a ha hm hd, s403m_eq] at he
        simp at he
        rcases he with he | he | he | he | he <;> subst he <;> rfl
  refine ⟨fun hd e he => hnone e he (Or.inr hd), ?_⟩
  intro pre post e htrace hon
  have hmem : e ∈ h.requestHandler t rt w request := by
    rw [htrace]; simp
  cases hm : IsIn rt.methodList request.Method with
  | false =>
      have := hnone e hmem (Or.inl hm)
      rw [hon] at this
      exact absurd this (by decide)
  | true =>
      cases hd : a.IsAuthorized rt.authorizerExpression (h.buildMetadata request) with
      | false =>
          have := hnone e hmem (Or.inr hd)
          rw [hon] at this
          exact absurd this (by decide)
      | true =>
          refine ⟨rfl, ?_⟩
          obtain ⟨rest, hrest⟩ := requestHandler_head h rt w request a ha hm
          rw [hrest] at htrace
          cases pre with
          | nil =>
              simp at htrace
              rw [← htrace.1] at hon
              simp [Effect.handsOn] at hon
          | cons x pre2 =>
              simp at htrace
              rw [← htrace.1]
              simp

/-- Witness for C2: the GET route behind `denyAll`. -/
theorem C2_denied_request_never_reaches_service_witness :
    deniedRoute.authorizer = some denyAll ∧
      ∀ e ∈ exampleServer.requestHandler asciiOnly deniedRoute calmWorld (echoRequest "GET"),
        e.handsOn = false :=
  ⟨rfl,
   (C2_denied_request_never_reaches_service asciiOnly exampleServer deniedRoute calmWorld
      (echoRequest "GET") denyAll rfl).1 rfl⟩

/-- C4: when the Service task of an admitted request is still running at the moment the
timeout of the derived context has elapsed, the handler writes exactly one response,
the 408 message with status 408, and returns; a result the Service returns afterwards
is sent on the one-slot channel without blocking, is never received and is not written
to the response. -/
theorem C4_timeout_gives_single_408 (t : CaseTables)
    (h : HTTPServer) (rt : Route) (w : World) (request : Request) (data : String)
    (hadm : rt.admits h request = true) (hbody : w.readAll = .ok data)
    (hlive : w.ctxErr = none)
    (hlate : rt.service.Serve (h.inputEvent t request data) = .blocks ∨
      h.mRequestTimeout.toNat < w.serveTime) :
    statusCodes (h.requestHandler t rt w request) = [408] ∧
    bodies (h.requestHandler t rt w request) =
      [h.getMessage "s408m" h.d408m (h.getLanguage request)] ∧
    Effect.cancel ∈ h.requestHandler t rt w request ∧
    (∀ r, Effect.chRecv r ∉ h.requestHandler t rt w request) ∧
    (∀ ev err, rt.service.Serve (h.inputEvent t request data) = .returns ev err →
      h.requestHandler t rt w request =
        h.preamble t rt request data ++
          ([.Serve (h.inputEvent t request data), .ctxDone] ++ h.s408m request none ++
            [.cancel]) ++
          [.chSend { Error := err, Event := ev } false]) := by
  have htrace := requestHandler_timeout h rt w request data hadm hbody hlive hlate
  have hpre : ∀ r, Effect.chRecv r ∉ h.preamble t rt request data := by
    intro r
    unfold HTTPServer.preamble HTTPServer.TransmitInputEvent
    cases rt.authorizer <;> cases h.mEventTransmitter <;> simp
  refine ⟨?_, ?_, ?_, ?_, ?_⟩
  · rw [htrace, statusCodes_append, statusCodes_append, statusCodes_preamble, s408m_eq]
    cases rt.service.Serve (h.inputEvent t request data) <;> rfl
  · rw [htrace, bodies_append, bodies_append, bodies_preamble, s408m_eq]
    cases rt.service.Serve (h.inputEvent t request data) <;> rfl
  · rw [htrace]
    simp
  · intro r
    rw [htrace, s408m_eq]
    have := hpre r
    cases rt.service.Serve (h.inputEvent t request data) <;> simp [this]
  · intro ev err hs
    rw [htrace, hs]

/-- Witness for C4: `Echo` needing two seconds under the default timeout of one second. -/
theorem C4_timeout_gives_single_408_witness :
    (openRoute Echo).admits exampleServer (echoRequest "GET") = true ∧
      slowWorld.readAll = .ok "" ∧ slowWorld.ctxErr = none ∧
      exampleServer.mRequestTimeout.toNat < slowWorld.serveTime ∧
      statusCodes (exampleServer.requestHandler asciiOnly (openRoute Echo) slowWorld
        (echoRequest "GET")) = [408] :=
  ⟨by decide, rfl, rfl, by decide,
   (C4_timeout_gives_single_408 asciiOnly exampleServer (openRoute Echo) slowWorld
      (echoRequest "GET") "" (by decide) rfl rfl (Or.inr (by decide))).1⟩

/-- C5, the code at the failing input: the request's context is already cancelled at the
dispatch step.  `Serve` is not started and the cancellation is put on the result
channel, but the derived context is done at that moment too, so both cases of the
`select` are ready: when the runtime takes `<-nCtx.Done()` the response is 408, and
only when it takes the result is the response 499. -/
theorem C5_cancelled_request_may_get_408 :
    (cancelledWorld .ctxDone).ctxErr = some .Canceled ∧
      exampleServer.nCtxDoneAt (cancelledWorld .ctxDone) = 0 ∧
      ∀ t : CaseTables,
        (∀ e ∈ exampleServer.requestHandler t (openRoute Echo) (cancelledWorld .ctxDone)
            (echoRequest "GET"),
          e ≠ .Serve (exampleServer.inputEvent t (echoRequest "GET") "")) ∧
        statusCodes (exampleServer.requestHandler t (openRoute Echo) (cancelledWorld .ctxDone)
          (echoRequest "GET")) = [408] ∧
        statusCodes (exampleServer.requestHandler t (openRoute Echo) (cancelledWorld .result)
          (echoRequest "GET")) = [499] := by
  refine ⟨rfl, rfl, ?_⟩
  intro t
  simp only [requestHandler_echoRequest t, inputEvent_echoRequest t]
  exact ⟨by decide, by decide, by decide⟩

/-- C6, the code at the failing input: the `Serve` of the route's Service panics while
the handler waits.  The panic is raised in the Service task, which has no barrier; the
handler's barrier does not run, no response is written, no panic counter is
incremented, and the process ends. -/
theorem C6_serve_panic_escapes_barrier :
    (openRoute panickingService).admits exampleServer (echoRequest "GET") = true ∧
      ∀ t : CaseTables,
        exampleServer.requestHandler t (openRoute panickingService) calmWorld
            (echoRequest "GET") =
          exampleServer.preamble t (openRoute panickingService) (echoRequest "GET") "" ++
            [.Serve (exampleServer.inputEvent t (echoRequest "GET") ""),
             .crash "Oh! I am panicking. Hurrah"] ∧
        statusCodes (exampleServer.requestHandler t (openRoute panickingService) calmWorld
          (echoRequest "GET")) = [] ∧
        panicLabels (exampleServer.requestHandler t (openRoute panickingService) calmWorld
          (echoRequest "GET")) = [] := by
  refine ⟨by decide, ?_⟩
  intro t
  simp only [requestHandler_echoRequest t, inputEvent_echoRequest t, preamble_echoRequest t]
  exact ⟨by decide, by decide, by decide⟩

/-- C7, as amended: whenever the barrier of a route handler recovers a fault, the panic
counter is incremented exactly once, and the label of that increment is the contract
id of the trigger, `abesh:httpserver`, whatever Service the route serves; no panic
counter with another label is incremented. -/
theorem C7_recovered_fault_counted_once_under_trigger_id (t : CaseTables)
    (h : HTTPServer) (rt : Route) (w : World) (request : Request) (v : String)
    (hrec : Effect.recover v ∈ h.requestHandler t rt w request) :
    panicLabels (h.requestHandler t rt w request) = [h.ContractId] ∧
    h.ContractId = "abesh:httpserver" := by
  refine ⟨?_, rfl⟩
  obtain ⟨he, hl⟩ := @barrierFree_handlerBody t h rt w request
  unfold HTTPServer.requestHandler at hrec ⊢
  simp only [] at hrec ⊢
  split at hrec
  · exact absurd hrec (not_recover_of_barrierFree _ he v)
  · rename_i hcr
    simp only [hcr]
    split at hrec
    · rename_i v2 hp
      simp only [Bool.false_eq_true, if_false]
      rw [panicLabels_append, panicLabels_append, panicLabels_append,
        panicLabels_of_barrierFree _ he, panicLabels_of_barrierFree _ hl]
      rfl
    · exfalso
      have hboth : barrierFree ((h.handlerBody t rt w request).effects ++
          (h.handlerBody t rt w request).late) = true := by
        rw [barrierFree_append, he, hl]; rfl
      exact not_recover_of_barrierFree _ hboth v hrec

/-- Witness for C7: the route of a Service that returns an event without status code;
the response writer panics and the barrier recovers. -/
theorem C7_recovered_fault_counted_once_under_trigger_id_witness :
    Effect.recover "invalid WriteHeader code 0" ∈
        exampleServer.requestHandler asciiOnly (openRoute statuslessService) calmWorld
          (echoRequest "GET") ∧
      panicLabels (exampleServer.requestHandler asciiOnly (openRoute statuslessService) calmWorld
        (echoRequest "GET")) = ["abesh:httpserver"] :=
  ⟨by decide,
   (C7_recovered_fault_counted_once_under_trigger_id asciiOnly exampleServer
      (openRoute statuslessService) calmWorld (echoRequest "GET") "invalid WriteHeader code 0"
      (by decide)).1⟩

/-- Counterexample to C7 as stated: on routes serving `statuslessService` and
`nilService` the barrier recovers a fault, and the label of the one increment is not
the contract id of the Service. -/
theorem C7_label_is_not_the_service_id_counterexample :
    (∀ t : CaseTables,
      Effect.recover "invalid WriteHeader code 0" ∈
        exampleServer.requestHandler t (openRoute statuslessService) calmWorld
          (echoRequest "GET") ∧
      panicLabels (exampleServer.requestHandler t (openRoute statuslessService) calmWorld
        (echoRequest "GET")) ≠ [statuslessService.ContractId]) ∧
    (∀ t : CaseTables,
      Effect.recover "runtime error: invalid memory address or nil pointer dereference" ∈
        exampleServer.requestHandler t (openRoute nilService) calmWorld (echoRequest "GET") ∧
      panicLabels (exampleServer.requestHandler t (openRoute nilService) calmWorld
        (echoRequest "GET")) ≠ [nilService.ContractId]) := by
  constructor
  · intro t
    simp only [requestHandler_echoRequest t]
    exact ⟨by decide, by decide⟩
  · intro t
    simp only [requestHandler_echoRequest t]
    exact ⟨by decide, by decide⟩

/-- C8, as amended: the method check is decided before the authorization.  On a route
with an Authorizer attached, a request for which `IsAuthorized` returns false is
answered with 403 when its method is in the route's method list, and with 405, without
the Authorizer being evaluated, when it is not. -/
theorem C8_method_check_precedes_authorization (t : CaseTables)
    (h : HTTPServer) (rt : Route) (w : World) (request : Request)
    (a : Authorizer) (ha : rt.authorizer = some a)
    (hd : a.IsAuthorized rt.authorizerExpression (h.buildMetadata request) = false) :
    (request.Method ∈ rt.methodList →
      h.requestHandler t rt w request =
        .IsAuthorized rt.authorizerExpression (h.buildMetadata request) ::
          h.s403m request none ∧
      statusCodes (h.requestHandler t rt w request) = [403]) ∧
    (request.Method ∉ rt.methodList →
      h.requestHandler t rt w request = h.s405m request none ∧
      statusCodes (h.requestHandler t rt w request) = [405] ∧
      Effect.IsAuthorized rt.authorizerExpression (h.buildMetadata request) ∉
        h.requestHandler t rt w request) := by
  constructor
  · intro hin
    have hm := (IsIn_iff _ _).mpr hin
    have ht := @requestHandler_denied t h rt w request a ha hm hd
    exact ⟨ht, by rw [ht]; rfl⟩
  · intro hnot
    have hm : IsIn rt.methodList request.Method = false := by
      cases hin : IsIn rt.methodList request.Method with
      | false => rfl
      | true => exact absurd ((IsIn_iff _ _).mp hin) hnot
    have ht := @handler_405 t h rt w request hm
    refine ⟨ht, by rw [ht]; rfl, ?_⟩
    rw [ht, s405m_eq]
    simp

/-- Witness for C8: a GET on the GET route behind `denyAll` is answered with 403. -/
theorem C8_method_check_precedes_authorization_witness :
    deniedRoute.authorizer = some denyAll ∧
      denyAll.IsAuthorized deniedRoute.authorizerExpression
        (exampleServer.buildMetadata (echoRequest "GET")) = false ∧
      statusCodes (exampleServer.requestHandler asciiOnly deniedRoute calmWorld
        (echoRequest "GET")) = [403] :=
  ⟨rfl, rfl,
   ((C8_method_check_precedes_authorization asciiOnly exampleServer deniedRoute calmWorld
      (echoRequest "GET") denyAll rfl rfl).1 (by decide)).2⟩

/-- Counterexample to C8 as stated: a POST on the GET route behind `denyAll`, for which
`IsAuthorized` returns false, is answered with 405 and not with 403. -/
theorem C8_denied_request_with_foreign_method_counterexample :
    deniedRoute.authorizer = some denyAll ∧
      denyAll.IsAuthorized deniedRoute.authorizerExpression
        (exampleServer.buildMetadata (echoRequest "POST")) = false ∧
      ∀ t : CaseTables,
        statusCodes (exampleServer.requestHandler t deniedRoute calmWorld
          (echoRequest "POST")) = [405] ∧
        statusCodes (exampleServer.requestHandler t deniedRoute calmWorld
          (echoRequest "POST")) ≠ [403] := by
  refine ⟨rfl, rfl, ?_⟩
  intro t
  simp only [requestHandler_echoRequest t]
  exact ⟨by decide, by decide⟩

/-- C9, as amended: on a route binding `Echo` to GET, a GET request whose `Content-Type`
header is absent or `application/text`, that is authorised, whose body is read without
error and whose Service returns before the derived context is done (no timeout, no
cancellation), gets status 200 and the body `echo`, and the response status counter is
incremented once, with the labels (path, `200`); a POST request gets 405. -/
theorem C9_echo_get_answers_200_echo (t : CaseTables)
    (h : HTTPServer) (rt : Route) (w : World) (request : Request) (data : String)
    (hml : rt.methodList = ["GET"]) (hsvc : rt.service = Echo) :
    (request.Method = "GET" →
      (∀ kv ∈ request.Header, ToLower t (TrimSpace kv.1) = "content-type" →
        kv.2 = [] ∨ kv.2.head? = some "application/text") →
      (∀ a, rt.authorizer = some a →
        a.IsAuthorized rt.authorizerExpression (h.buildMetadata request) = true) →
      w.readAll = .ok data →
      w.serveTime < h.nCtxDoneAt w →
        statusCodes (h.requestHandler t rt w request) = [200] ∧
        bodies (h.requestHandler t rt w request) = ["echo"] ∧
        statusIncs (h.requestHandler t rt w request) = [(request.Path, "200")]) ∧
    (request.Method = "POST" →
      statusCodes (h.requestHandler t rt w request) = [405]) := by
  constructor
  · intro hget hct hauth hbody hlt
    have hadm : rt.admits h request = true := by
      unfold Route.admits
      rw [hml, hget]
      cases ha : rt.authorizer with
      | none => rfl
      | some a =>
          have := hauth a ha
          simp only [this]
          rfl
    have hie := inputEvent_text h request data hct
    have hserve : rt.service.Serve (h.inputEvent t request data) =
        .returns (some echoTextOutput) none := by
      rw [hsvc, hie]
      rfl
    have hbodyeq := requestHandler_served h rt w request data _ _ hadm hbody hserve hlt
    have htrace : h.requestHandler t rt w request =
        h.preamble t rt request data ++
          [.Serve (h.inputEvent t request data),
           .chSend { Error := none, Event := some echoTextOutput } false,
           .chRecv { Error := none, Event := some echoTextOutput },
           .responseStatusInc request.Path "200"] ++
          h.TransmitOutputEvent rt.service.ContractId (some echoTextOutput) ++
          [.HeaderAdd "Content-Type" "application/text", .WriteHeader 200, .Write "echo",
           .cancel] := by
      unfold HTTPServer.requestHandler
      rw [hbodyeq]
      have h200 : fmtD 200 = "200" := by decide
      simp [Run.wrap, HTTPServer.onResult, HTTPServer.success, validWriteHeaderCode, h200,
        echoTextOutput]
    refine ⟨?_, ?_, ?_⟩
    · rw [htrace, statusCodes_append, statusCodes_append, statusCodes_append,
        statusCodes_preamble, statusCodes_TransmitOutputEvent]
      rfl
    · rw [htrace, bodies_append, bodies_append, bodies_append,
        bodies_preamble, bodies_TransmitOutputEvent]
      rfl
    · rw [htrace, statusIncs_append, statusIncs_append, statusIncs_append,
        statusIncs_preamble, statusIncs_TransmitOutputEvent]
      rfl
  · intro hpost
    have hm : IsIn rt.methodList request.Method = false := by
      rw [hml, hpost]
      decide
    rw [handler_405 h rt w request hm]
    rfl

/-- Witness for C9: the route `AddService` builds for `/echo` with method `get`, asked
with GET in a calm environment. -/
theorem C9_echo_get_answers_200_echo_witness :
    (routeOf asciiOnly none "" echoTrigger Echo).methodList = ["GET"] ∧
      calmWorld.serveTime < exampleServer.nCtxDoneAt calmWorld ∧
      bodies (exampleServer.requestHandler asciiOnly
        (routeOf asciiOnly none "" echoTrigger Echo) calmWorld (echoRequest "GET")) = ["echo"] :=
  ⟨by decide, by decide,
   ((C9_echo_get_answers_200_echo asciiOnly exampleServer
      (routeOf asciiOnly none "" echoTrigger Echo) calmWorld
      (echoRequest "GET") "" (by decide) rfl).1 rfl
        (by intro kv hkv; simp [echoRequest] at hkv)
        (by intro a ha; simp [routeOf] at ha) rfl (by decide)).2.1⟩

/-- Counterexample to C9 as stated: a GET without `Content-Type`, authorised, neither
timed out nor cancelled, whose body cannot be read, gets 500 and not 200. -/
theorem C9_unreadable_body_counterexample :
    brokenBodyWorld.ctxDoneAt = none ∧
      brokenBodyWorld.serveTime < exampleServer.nCtxDoneAt brokenBodyWorld ∧
      ∀ t : CaseTables,
        (routeOf t none "" echoTrigger Echo).admits exampleServer (echoRequest "GET") = true ∧
        statusCodes (exampleServer.requestHandler t (routeOf t none "" echoTrigger Echo)
          brokenBodyWorld (echoRequest "GET")) = [500] ∧
        bodies (exampleServer.requestHandler t (routeOf t none "" echoTrigger Echo)
          brokenBodyWorld (echoRequest "GET")) ≠ ["echo"] := by
  refine ⟨rfl, by decide, ?_⟩
  intro t
  simp only [requestHandler_echoRequest t, routeOf_echoTrigger t]
  exact ⟨by decide, by decide, by decide⟩

/-- C11, as amended: for every status code of the family, the default message
`SetConfigMap` stores is `buildDefaultMessage` of that code, a JSON text laid out over
several lines, with tabs and with a space after each colon, whose compact form (the
white space outside string literals removed) is the body
`{"code":"SE_<c>","lang":"en","message":"<c> ERROR","data":{}}`. -/
theorem C11_default_message_is_the_spec_body_up_to_layout
    (ParseDuration : String → Option Int) (h : HTTPServer) (values : ConfigMap) :
    ((h.SetConfigMap ParseDuration values).d401m = h.buildDefaultMessage 401 ∧
      (h.SetConfigMap ParseDuration values).d403m = h.buildDefaultMessage 403 ∧
      (h.SetConfigMap ParseDuration values).d404m = h.buildDefaultMessage 404 ∧
      (h.SetConfigMap ParseDuration values).d405m = h.buildDefaultMessage 405 ∧
      (h.SetConfigMap ParseDuration values).d408m = h.buildDefaultMessage 408 ∧
      (h.SetConfigMap ParseDuration values).d409m = h.buildDefaultMessage 409 ∧
      (h.SetConfigMap ParseDuration values).d499m = h.buildDefaultMessage 499 ∧
      (h.SetConfigMap ParseDuration values).d500m = h.buildDefaultMessage 500) ∧
    ∀ c ∈ statusFamily, compactBody (h.buildDefaultMessage c) = specDefaultBody c := by
  refine ⟨⟨rfl, rfl, rfl, rfl, rfl, rfl, rfl, rfl⟩, ?_⟩
  intro c hc
  simp only [statusFamily, List.mem_cons, List.mem_singleton, List.not_mem_nil, or_false] at hc
  have hfree : h.buildDefaultMessage c = HTTPServer.buildDefaultMessage {} c := rfl
  rw [hfree]
  rcases hc with hc | hc | hc | hc | hc | hc | hc | hc <;> subst hc <;> decide

/-- Witness for C11: the code 404. -/
theorem C11_default_message_is_the_spec_body_up_to_layout_witness :
    404 ∈ statusFamily ∧
      compactBody (exampleServer.buildDefaultMessage 404) =
        "\x7b\"code\":\"SE_404\",\"lang\":\"en\",\"message\":\"404 ERROR\",\"data\":\x7b\x7d\x7d" :=
  ⟨by decide,
   (C11_default_message_is_the_spec_body_up_to_layout (fun _ => none) exampleServer []).2 404
     (by decide)⟩

/-- Counterexample to C11 as stated: the default message stored for 404 is not the text
`{"code":"SE_404","lang":"en","message":"404 ERROR","data":{}}`; it starts with a line
break and two tabs. -/
theorem C11_stored_text_has_layout_counterexample :
    (HTTPServer.SetConfigMap (fun _ => none) {} []).d404m ≠ specDefaultBody 404 ∧
      (HTTPServer.SetConfigMap (fun _ => none) {} []).d404m.data.take 4 =
        [Char.ofNat 10, Char.ofNat 9, Char.ofNat 9, Char.ofNat 123] := by
  refine ⟨by decide, by decide⟩

/-- C12: for every configuration, status code `c`, default template `d` and request,
`writeMessage` writes one body, chosen by the three-step fallback: with `lang` the value
of the `Accept-Language` header, or `en` when that header is absent or empty, the body
is the value of `s<c>m_<lang>` when that key is present with a non-empty value,
otherwise the value of `s<c>m` when that key is present, otherwise `d`. -/
theorem C12_message_chosen_by_three_step_fallback
    (h : HTTPServer) (c : Nat) (d : String) (request : Request) (errLocal : Option GoError) :
    bodies (h.writeMessage c d request errLocal) =
        [specMessage h.mValues c d (specLanguage request)] ∧
    statusCodes (h.writeMessage c d request errLocal) = [c] ∧
    h.getMessage ("s" ++ fmtD c ++ "m") d (h.getLanguage request) =
      specMessage h.mValues c d (specLanguage request) := by
  have hm : h.getMessage ("s" ++ fmtD c ++ "m") d (h.getLanguage request) =
      specMessage h.mValues c d (specLanguage request) := by
    rw [getLanguage_eq_spec, getMessage_eq_spec]
  refine ⟨?_, rfl, hm⟩
  unfold HTTPServer.writeMessage
  rw [hm]
  rfl

/-- C13: for a request whose header and query maps have distinct keys (they are Go maps),
the Metadata of the input Event holds, for every query key and every header key with at
least one value, the first of its values under the key as it appears in the request, and
holds nothing else, so keys with an empty value list are absent.  The lookup map read for
the content type holds, under each key, the first value of the header visited last among
those with that lower-cased, trimmed name; when the header names are as the server hands
them to a handler (valid field names in canonical form), no two of them have the same
lower-cased, trimmed form, so the lookup map holds under the lower-cased name of every
header with a value the first value of that header, the one the Metadata holds, and
nothing else. -/
theorem C13_metadata_holds_first_values (t : CaseTables)
    (h : HTTPServer) (request : Request) (data : String)
    (hH : (request.Header.map Prod.fst).Nodup) (hQ : (request.Query.map Prod.fst).Nodup) :
    (h.inputEvent t request data).Metadata = some (h.buildMetadata request) ∧
    (∀ k v vs, (k, v :: vs) ∈ request.Query →
      (h.buildMetadata request).Query.lookup k = some v) ∧
    (∀ k v vs, (k, v :: vs) ∈ request.Header →
      (h.buildMetadata request).Headers.lookup k = some v) ∧
    (∀ k v, (h.buildMetadata request).Query.lookup k = some v →
      ∃ vs, (k, v :: vs) ∈ request.Query) ∧
    (∀ k v, (h.buildMetadata request).Headers.lookup k = some v →
      ∃ vs, (k, v :: vs) ∈ request.Header) ∧
    (∀ k, (k, []) ∈ request.Query → (h.buildMetadata request).Query.lookup k = none) ∧
    (∀ k, (k, []) ∈ request.Header → (h.buildMetadata request).Headers.lookup k = none) ∧
    (h.inputEvent t request data).TypeUrl =
      GetValue (lookupHeaders t request) "content-type" "application/text" ∧
    (∀ key v, (lookupHeaders t request).lookup key = some v →
      ∃ k vs, (k, v :: vs) ∈ request.Header ∧ headerKey t k = key) ∧
    (∀ key, (lookupHeaders t request).lookup key =
      (lastWithKey t key request.Header).bind (fun kv => kv.2.head?)) ∧
    (request.headerAsServed →
      ∀ k v vs, (k, v :: vs) ∈ request.Header →
        (lookupHeaders t request).lookup (headerKey t k) = some v ∧
        (lookupHeaders t request).lookup (headerKey t k) =
          (h.buildMetadata request).Headers.lookup k ∧
        headerKey t k = String.mk (k.data.map Char.toLower)) := by
  have hexists : ∀ (l : List (String × List String)) (keyOf : String → String) (key v : String),
      (firstValues keyOf l).lookup key = some v →
      ∃ k vs, (k, v :: vs) ∈ l ∧ keyOf k = key := by
    intro l keyOf key v hl
    obtain ⟨kv, hkv, hkey, hhead⟩ := firstValues_lookup keyOf l key v hl
    obtain ⟨k, vals⟩ := kv
    cases vals with
    | nil => simp at hhead
    | cons v0 vs =>
        simp only [List.head?_cons, Option.some.injEq] at hhead
        subst hhead
        exact ⟨k, vs, hkv, hkey⟩
  have hmeta : ∀ k v vs, (k, v :: vs) ∈ request.Header →
      (h.buildMetadata request).Headers.lookup k = some v := by
    intro k v vs hmem
    exact firstValues_get id request.Header (inj_of_nodup_keys _ hH) (k, v :: vs) hmem v vs rfl
  refine ⟨rfl, ?_, hmeta, ?_, ?_, ?_, ?_, rfl, ?_, ?_, ?_⟩
  · intro k v vs hmem
    exact firstValues_get id request.Query (inj_of_nodup_keys _ hQ) (k, v :: vs) hmem v vs rfl
  · intro k v hl
    obtain ⟨k2, vs, hmem, hk⟩ := hexists request.Query id k v hl
    simp only [id] at hk
    subst hk
    exact ⟨vs, hmem⟩
  · intro k v hl
    obtain ⟨k2, vs, hmem, hk⟩ := hexists request.Header id k v hl
    simp only [id] at hk
    subst hk
    exact ⟨vs, hmem⟩
  · intro k hk
    exact firstValues_absent request.Query hQ k hk
  · intro k hk
    exact firstValues_absent request.Header hH k hk
  · intro key v hl
    exact hexists request.Header _ key v hl
  · intro key
    exact firstValues_lookup_last _ request.Header key
  · intro hserved k v vs hmem
    have hinj : ∀ a ∈ request.Header, ∀ b ∈ request.Header, a.2 ≠ [] → b.2 ≠ [] →
        headerKey t a.1 = headerKey t b.1 → a = b := by
      intro a ha b hb _ _ hab
      have hk := headerKey_inj t a.1 b.1 (hserved a ha) (hserved b hb) hab
      exact List.inj_on_of_nodup_map hH ha hb hk
    have hl : (lookupHeaders t request).lookup (headerKey t k) = some v :=
      firstValues_get (headerKey t) request.Header hinj (k, v :: vs) hmem v vs rfl
    refine ⟨hl, ?_, ?_⟩
    · rw [hl, hmeta k v vs hmem]
    · have hv := (hserved (k, v :: vs) hmem).1
      unfold ValidHeaderFieldName at hv
      rw [Bool.and_eq_true] at hv
      unfold headerKey
      rw [TrimSpace_token k hv.2]
      exact ToLower_ascii t k
        (fun c hc => (isTokenChar_ascii c (List.all_eq_true.mp hv.2 c hc)).1)

/-- Witness for C13: a request with two headers and one query key, as the server hands
it over. -/
theorem C13_metadata_holds_first_values_witness :
    (servedRequest.Header.map Prod.fst).Nodup ∧ (servedRequest.Query.map Prod.fst).Nodup ∧
      servedRequest.headerAsServed ∧
      (exampleServer.buildMetadata servedRequest).Query.lookup "q" = some "1" ∧
      (lookupHeaders asciiOnly servedRequest).lookup "content-type" =
        some "application/json" ∧
      headerKey asciiOnly "Content-Type" = "content-type" :=
  ⟨by decide, by decide, servedRequest_headerAsServed,
   (C13_metadata_holds_first_values asciiOnly exampleServer servedRequest ""
      (by decide) (by decide)).2.1 "q" "1" ["2"] (by decide),
   ((C13_metadata_holds_first_values asciiOnly exampleServer servedRequest ""
      (by decide) (by decide)).2.2.2.2.2.2.2.2.2.2 servedRequest_headerAsServed
        "Content-Type" "application/json" ["text/plain"] (by decide)).1,
   by decide⟩

/-- C14: for every structured error with prefix `p` and message `m`, `Error()` is
`p: m` without cause and `p: m: <cause.Error()>` with a cause, and `Unwrap()` returns
the cause unchanged, nil when there is none; `NewInternalErrorWithCause(c, "failed",
nil, "1").Error()` is `internal_service.1: failed: ` followed by `c.Error()`, for every
error `c`. -/
theorem C14_structured_error_rendering
    (p m : String) (data : Option GoMap) (retryable : Bool) (c : GoError) :
    ({ Prefix := p, Message := m, Data := data, Retryable := retryable,
       Cause := none } : StructuredError).Error = p ++ ": " ++ m ∧
    ({ Prefix := p, Message := m, Data := data, Retryable := retryable,
       Cause := some c } : StructuredError).Error = p ++ ": " ++ m ++ ": " ++ c.Error ∧
    ({ Prefix := p, Message := m, Data := data, Retryable := retryable,
       Cause := none } : StructuredError).Unwrap = none ∧
    ({ Prefix := p, Message := m, Data := data, Retryable := retryable,
       Cause := some c } : StructuredError).Unwrap = some c ∧
    (NewInternalErrorWithCause (some c) "failed" none "1").Error =
      "internal_service.1: failed: " ++ c.Error ∧
    (NewInternalErrorWithCause (some c) "failed" none "1").Unwrap = some c ∧
    (StructuredError.New "T" "failed" (some [])).Error = "T: failed" ∧
    (NewInternalErrorWithCause (some (.errorString "cause")) "failed" none "1").Error =
      "internal_service.1: failed: cause" := by
  refine ⟨rfl, rfl, rfl, rfl, ?_, rfl, by decide, by decide⟩
  show "internal_service" ++ "." ++ "1" ++ ": " ++ "failed" ++ ": " ++ c.Error =
    "internal_service.1: failed: " ++ c.Error
  have hlit : ("internal_service" ++ "." ++ "1" ++ ": " ++ "failed" ++ ": " : String) =
      "internal_service.1: failed: " := by decide
  rw [hlit]

/-- C15, as amended: `IsIn(l, v)` is true exactly when `v` occurs in the list of strings
`l`, in particular false for the empty list, and `IsInGeneric(l, v)` returns the same as
`IsIn(l, v)`.  Over a comparable element type `IsInGeneric` returns true exactly when the
list has an element that `==` reports equal to the value and no earlier comparison
panics.  For the element types on which `==` is identity of values, strings and
integers among them, that is exactly when the value occurs in the list; for `float64` it
is when an element is equal to the value by the comparison of IEEE 754, so a NaN is
never found; and a comparison of interface values that panics ends the scan. -/
theorem C15_IsIn_is_membership :
    (∀ (l : List String) (v : String), IsIn l v = true ↔ v ∈ l) ∧
    (∀ v : String, IsIn [] v = false) ∧
    (∀ (l : List String) (v : String), IsInGeneric l v = some (IsIn l v)) ∧
    (∀ (T : Type) [Comparable T] (l : List T) (v : T),
      IsInGeneric l v = some true ↔
        ∃ (front : List T) (x : T) (back : List T), l = front ++ x :: back ∧
          Comparable.equal x v = some true ∧ ∀ y ∈ front, Comparable.equal y v = some false) ∧
    (∀ (T : Type) [Comparable T], Comparable.isIdentity T → ∀ (l : List T) (v : T),
      (IsInGeneric l v = some true ↔ v ∈ l) ∧ (IsInGeneric l v = some false ↔ ¬ v ∈ l)) ∧
    Comparable.isIdentity String ∧ Comparable.isIdentity Int ∧
    (∀ (l : List Float64) (v : Float64),
      (IsInGeneric l v = some true ↔ ∃ x ∈ l, Float64.eq x v = true) ∧
      (v.isNaN = true → IsInGeneric l v = some false)) ∧
    IsInGeneric [Dynamic.int 1, Dynamic.string "1"] (Dynamic.string "1") = some true ∧
    IsInGeneric [Dynamic.slice [1]] (Dynamic.slice [1]) = none ∧
    IsIn ["1", "100", "20"] "20" = true ∧ IsIn ["1", "100", "20"] "200" = false ∧
    IsInGeneric ["1", "100", "20"] "20" = some true ∧
    IsInGeneric ["1", "100", "20"] "200" = some false ∧
    IsInGeneric [(1 : Int), 2, 3, 4, 5] 5 = some true ∧
    IsInGeneric [(1 : Int), 2, 3, 4, 5] 6 = some false ∧
    IsInGeneric [Float64.small 1, Float64.small 2, Float64.small 3, Float64.small 4,
      Float64.small 5] (Float64.small 5) = some true ∧
    IsInGeneric [Float64.small 1, Float64.small 2, Float64.small 3, Float64.small 4,
      Float64.small 5] (Float64.small 6) = some false := by
  refine ⟨IsIn_iff, fun _ => rfl, ?_, fun T _ l v => IsInGeneric_true_iff l v,
    fun T _ hid l v => IsInGeneric_identity hid l v, isIdentity_string, isIdentity_integer,
    ?_, by decide, by decide, by decide, by decide, by decide, by decide, by decide, by decide,
    by decide, by decide⟩
  · intro l v
    induction l with
    | nil => rfl
    | cons a rest ih =>
        unfold IsInGeneric IsIn
        show (match some (a == v) with
          | some true => some true
          | some false => IsInGeneric rest v
          | none => none) = _
        cases hav : (a == v) with
        | true => simp
        | false => simpa using ih
  · intro l v
    have hall : ∀ l : List Float64, IsInGeneric l v = some (l.any (fun x => Float64.eq x v)) := by
      intro l
      induction l with
      | nil => rfl
      | cons a rest ih =>
          unfold IsInGeneric
          show (match some (Float64.eq a v) with
            | some true => some true
            | some false => IsInGeneric rest v
            | none => none) = _
          cases hav : Float64.eq a v with
          | true => simp [hav]
          | false => simpa [hav] using ih
    constructor
    · rw [hall]
      simp
    · intro hnan
      rw [hall]
      have : l.any (fun x => Float64.eq x v) = false := by
        rw [List.any_eq_false]
        intro x _
        unfold Float64.eq
        rw [hnan]
        simp
      rw [this]

/-- Counterexample to C15 as stated: a NaN occurs in the list that holds it, and
`IsInGeneric` over `float64` does not find it. -/
theorem C15_NaN_is_never_found_counterexample :
    Float64.NaN.isNaN = true ∧
      Float64.NaN ∈ [Float64.small 1, Float64.NaN] ∧
      IsInGeneric [Float64.small 1, Float64.NaN] Float64.NaN = some false := by
  refine ⟨by decide, by decide, by decide⟩

/-- C16, as amended: the route `AddService` builds from the method string `m` passes a
request method `r` on (its handler does not take the 405 branch) if and only if `r` is
one of the comma-separated entries of the upper-cased `m` with its leading and trailing
white space removed; as upper-casing neither makes nor removes a comma, these entries are
the upper-casings of the entries of the trimmed `m`.  So two declarations whose trimmed,
upper-cased texts are the same, or have the same entries up to order, such as `get,post`
and `POST,GET`, pass the same request methods. -/
theorem C16_method_list_is_comma_separated_and_case_insensitive (t : CaseTables)
    (h : HTTPServer) (authorizer : Option Authorizer) (expr : String) (tv : ConfigMap)
    (service : Service) (w : World) (request : Request) :
    (IsIn (routeOf t authorizer expr tv service).methodList request.Method = true ↔
      request.Method ∈ Split (ToUpper t (TrimSpace (ConfigMap.String tv "method" ""))) ",") ∧
    (h.requestHandler t (routeOf t authorizer expr tv service) w request ≠
        h.s405m request none ↔
      request.Method ∈ Split (ToUpper t (TrimSpace (ConfigMap.String tv "method" ""))) ",") ∧
    (t.keepsComma →
      (h.requestHandler t (routeOf t authorizer expr tv service) w request ≠
          h.s405m request none ↔
        ∃ e ∈ Split (TrimSpace (ConfigMap.String tv "method" "")) ",",
          request.Method = ToUpper t e)) ∧
    (∀ tv2 : ConfigMap,
      (Split (ToUpper t (TrimSpace (ConfigMap.String tv "method" ""))) ",").Perm
        (Split (ToUpper t (TrimSpace (ConfigMap.String tv2 "method" ""))) ",") →
      ∀ r, IsIn (routeOf t authorizer expr tv service).methodList r =
        IsIn (routeOf t authorizer expr tv2 service).methodList r) ∧
    (∀ tv2 : ConfigMap,
      ToUpper t (TrimSpace (ConfigMap.String tv "method" "")) =
        ToUpper t (TrimSpace (ConfigMap.String tv2 "method" "")) →
      ∀ r, IsIn (routeOf t authorizer expr tv service).methodList r =
        IsIn (routeOf t authorizer expr tv2 service).methodList r) ∧
    (∀ r, IsIn (routeOf t authorizer expr [("method", "get,post")] service).methodList r =
      IsIn (routeOf t authorizer expr [("method", "POST,GET")] service).methodList r) := by
  have hperm : ∀ tv1 tv2 : ConfigMap,
      (Split (ToUpper t (TrimSpace (ConfigMap.String tv1 "method" ""))) ",").Perm
        (Split (ToUpper t (TrimSpace (ConfigMap.String tv2 "method" ""))) ",") →
      ∀ r, IsIn (routeOf t authorizer expr tv1 service).methodList r =
        IsIn (routeOf t authorizer expr tv2 service).methodList r := by
    intro tv1 tv2 hp r
    have hiff : IsIn (routeOf t authorizer expr tv1 service).methodList r = true ↔
        IsIn (routeOf t authorizer expr tv2 service).methodList r = true := by
      rw [routeOf_accepts_iff, routeOf_accepts_iff]
      exact hp.mem_iff
    cases h1 : IsIn (routeOf t authorizer expr tv1 service).methodList r with
    | true => exact (hiff.mp h1).symm
    | false =>
        cases h2 : IsIn (routeOf t authorizer expr tv2 service).methodList r with
        | false => rfl
        | true =>
            have := hiff.mpr h2
            rw [h1] at this
            cases this
  have haccept : h.requestHandler t (routeOf t authorizer expr tv service) w request ≠
        h.s405m request none ↔
      request.Method ∈ Split (ToUpper t (TrimSpace (ConfigMap.String tv "method" ""))) "," := by
    rw [← routeOf_accepts_iff authorizer expr tv service request.Method]
    rw [Ne, requestHandler_405_iff]
    simp
  refine ⟨routeOf_accepts_iff authorizer expr tv service request.Method, haccept, ?_,
    hperm tv, ?_, ?_⟩
  · intro hcomma
    rw [haccept]
    exact declared_entries hcomma _ _
  · intro tv2 heq
    apply hperm
    rw [heq]
  · apply hperm
    have h1 : Split (ToUpper t (TrimSpace (ConfigMap.String [("method", "get,post")] "method" "")))
        "," = ["GET", "POST"] := rfl
    have h2 : Split (ToUpper t (TrimSpace (ConfigMap.String [("method", "POST,GET")] "method" "")))
        "," = ["POST", "GET"] := rfl
    rw [h1, h2]
    decide

/-- Witness for C16: tables that leave the characters above ASCII as they are never make
a comma; with them the route declared `get` passes GET on.  With the table entries of
Unicode for the long s and for the letter e with acute accent, the routes declared with
these letters in lower case pass `POST` and the upper-cased method on. -/
theorem C16_method_list_is_comma_separated_and_case_insensitive_witness :
    asciiOnly.keepsComma ∧
      exampleServer.requestHandler asciiOnly (routeOf asciiOnly none "" echoTrigger Echo)
        calmWorld (echoRequest "GET") ≠ exampleServer.s405m (echoRequest "GET") none ∧
      IsIn (routeOf latinSample none "" [("method", "poſt")] Echo).methodList "POST" = true ∧
      IsIn (routeOf latinSample none "" [("method", "gét")] Echo).methodList "GÉT" =
        true :=
  ⟨asciiOnly_keepsComma,
   ((C16_method_list_is_comma_separated_and_case_insensitive asciiOnly exampleServer none ""
      echoTrigger Echo calmWorld (echoRequest "GET")).2.2.1 asciiOnly_keepsComma).mpr
        ⟨"get", by decide, by decide⟩,
   by decide, by decide⟩

/-- Counterexample to C16 as stated: with the method string ` get` (a leading space)
the route passes the request method `GET`, which is not the upper-casing of an entry of
that string: its only entry is ` get`, upper-cased ` GET`. -/
theorem C16_white_space_around_method_counterexample :
    Split " get" "," = [" get"] ∧
      ∀ t : CaseTables,
        IsIn (routeOf t none "" [("method", " get"), ("path", "/echo")] Echo).methodList
          "GET" = true ∧
        ¬ ∃ e ∈ Split " get" ",", "GET" = ToUpper t e := by
  have hs : Split " get" "," = [" get"] := by decide
  refine ⟨hs, ?_⟩
  intro t
  refine ⟨rfl, ?_⟩
  rintro ⟨e, he, heq⟩
  rw [hs, List.mem_singleton] at he
  rw [he] at heq
  have hu : ToUpper t " get" = " GET" := rfl
  rw [hu] at heq
  revert heq
  decide

/-- C17, as amended: `AddService` returns `ErrMethodNotDefined` exactly when the trigger
configuration has no `method` key or maps it to the empty string; otherwise it returns
`ErrPathNotDefined` exactly when the configuration has no `path` key or maps it to the
empty string; in both cases nothing is registered (a failing call yields no new state
of the server).  Otherwise it registers exactly one handler, at the trimmed path, when
the mux exists, the trimmed path is not empty and no handler is registered for it;
when one of these three conditions fails the registration panics. -/
theorem C17_AddService_outcomes (t : CaseTables)
    (h : HTTPServer) (authorizer : Option Authorizer) (expr : String) (tv : ConfigMap)
    (service : Service) :
    (h.AddService t authorizer expr tv service = .error (.error ErrMethodNotDefined) ↔
      (tv.lookup "method" = none ∨ tv.lookup "method" = some "")) ∧
    (h.AddService t authorizer expr tv service = .error (.error ErrPathNotDefined) ↔
      ¬ (tv.lookup "method" = none ∨ tv.lookup "method" = some "") ∧
        (tv.lookup "path" = none ∨ tv.lookup "path" = some "")) ∧
    (∀ h2, h.AddService t authorizer expr tv service = .ok h2 ↔
      ¬ (tv.lookup "method" = none ∨ tv.lookup "method" = some "") ∧
      ¬ (tv.lookup "path" = none ∨ tv.lookup "path" = some "") ∧
      ∃ mux, h.mHttpServerMux = some mux ∧
        TrimSpace (ConfigMap.String tv "path" "") ≠ "" ∧
        (∀ e ∈ mux.entries, e.1 ≠ TrimSpace (ConfigMap.String tv "path" "")) ∧
        h2 = h.withHandler mux (TrimSpace (ConfigMap.String tv "path" ""))
          (.requestHandler (routeOf t authorizer expr tv service))) ∧
    (∀ h2 mux, h.mHttpServerMux = some mux →
      h.AddService t authorizer expr tv service = .ok h2 →
      ∃ mux2, h2.mHttpServerMux = some mux2 ∧
        mux2.entries = mux.entries ++ [(TrimSpace (ConfigMap.String tv "path" ""),
          .requestHandler (routeOf t authorizer expr tv service))]) ∧
    ((∃ v, h.AddService t authorizer expr tv service = .error (.panic v)) ↔
      ¬ (tv.lookup "method" = none ∨ tv.lookup "method" = some "") ∧
      ¬ (tv.lookup "path" = none ∨ tv.lookup "path" = some "") ∧
      (h.mHttpServerMux = none ∨ TrimSpace (ConfigMap.String tv "path" "") = "" ∨
        ∃ mux, h.mHttpServerMux = some mux ∧
          ∃ e ∈ mux.entries, e.1 = TrimSpace (ConfigMap.String tv "path" ""))) := by
  have hany : ∀ mux : ServeMux,
      (mux.entries.any (fun e => e.1 == TrimSpace (ConfigMap.String tv "path" ""))) = true ↔
        ∃ e ∈ mux.entries, e.1 = TrimSpace (ConfigMap.String tv "path" "") := by
    intro mux
    rw [List.any_eq_true]
    constructor
    · rintro ⟨e, he, heq⟩
      exact ⟨e, he, by simpa using heq⟩
    · rintro ⟨e, he, heq⟩
      exact ⟨e, he, by simpa using heq⟩
  have hne : ErrPathNotDefined ≠ ErrMethodNotDefined := by decide
  rw [AddService_eq, ← String_eq_empty_iff, ← String_eq_empty_iff]
  by_cases hm : ConfigMap.String tv "method" "" = ""
  · simp [hm, hne.symm]
  · by_cases hp : ConfigMap.String tv "path" "" = ""
    · simp [hm, hp, hne]
    · simp only [hm, hp, if_false, not_false_eq_true, true_and, false_and, iff_false]
      cases hmux : h.mHttpServerMux with
      | none => simp
      | some mux =>
          by_cases ht : TrimSpace (ConfigMap.String tv "path" "") = ""
          · simp [ht]
          · cases ha : mux.entries.any
                (fun e => e.1 == TrimSpace (ConfigMap.String tv "path" "")) with
            | true =>
                have hex := (hany mux).mp ha
                simp only [ht, ha, if_false, if_true]
                refine ⟨by simp, by simp, ?_, ?_, ?_⟩
                · intro h2
                  constructor
                  · intro hh; cases hh
                  · rintro ⟨mux2, hm2, _, hfresh, _⟩
                    simp only [Option.some.injEq] at hm2
                    subst hm2
                    obtain ⟨e, he, heq⟩ := hex
                    exact absurd heq (hfresh e he)
                · intro h2 mux2 _ hh
                  cases hh
                · constructor
                  · intro _
                    exact Or.inr (Or.inr ⟨mux, rfl, hex⟩)
                  · intro _
                    exact ⟨_, rfl⟩
            | false =>
                have hnex : ¬ ∃ e ∈ mux.entries, e.1 = TrimSpace (ConfigMap.String tv "path" "") := by
                  rw [← hany mux, ha]
                  simp
                simp only [ht, ha, if_false, Bool.false_eq_true]
                refine ⟨by simp, by simp, ?_, ?_, ?_⟩
                · intro h2
                  constructor
                  · intro hh
                    simp only [Except.ok.injEq] at hh
                    refine ⟨mux, rfl, ht, ?_, hh.symm⟩
                    intro e he heq
                    exact hnex ⟨e, he, heq⟩
                  · rintro ⟨mux2, hm2, _, _, h2eq⟩
                    simp only [Option.some.injEq] at hm2
                    subst hm2
                    rw [h2eq]
                · intro h2 mux2 hm2 hh
                  simp only [Option.some.injEq] at hm2
                  subst hm2
                  simp only [Except.ok.injEq] at hh
                  rw [← hh]
                  exact ⟨_, rfl, rfl⟩
                · constructor
                  · rintro ⟨v, hv⟩
                    cases hv
                  · rintro (hnone | hempty | ⟨mux2, hm2, hex⟩)
                    · cases hnone
                    · exact hempty.elim
                    · simp only [Option.some.injEq] at hm2
                      subst hm2
                      exact absurd hex hnex

/-- Counterexample to C17 as stated: with a method and a non-empty path declared,
`AddService` does not always register a handler.  A path of white space is trimmed to
the empty pattern, and a path that is already registered, or a mux that `Setup` has
not created yet, make the registration panic too. -/
theorem C17_registration_can_panic_counterexample :
    (∀ t : CaseTables,
      exampleServer.AddService t none "" [("method", "GET"), ("path", " ")] Echo =
        .error (.panic "http: invalid pattern")) ∧
    (∀ t : CaseTables,
      (echoServer t).AddService t none "" echoTrigger Echo =
        .error (.panic "http: multiple registrations for /echo")) ∧
    (∀ t : CaseTables,
      (HTTPServer.SetConfigMap (fun _ => none) {} []).AddService t none "" echoTrigger Echo =
        .error (.panic "runtime error: invalid memory address or nil pointer dereference")) :=
  ⟨fun _ => rfl, fun _ => rfl, fun _ => rfl⟩

/-- C18, the code at the failing input: on a platform whose `uint` has 64 bits, the
text `4294967296` is a decimal literal in the range of `uint`, and `Uint` returns the
default for it, because it parses with bit size 32; `Int`, `Uint64` and `UintList`
return the value for the same text, and `Uint` returns the value for `4294967295`. -/
theorem C18_Uint_returns_default_from_2_pow_32 :
    (4294967296 : Int) < 2 ^ 64 ∧
      ConfigMap.Uint [("k", "4294967296")] "k" 7 = 7 ∧
      ConfigMap.Int 64 [("k", "4294967296")] "k" 7 = 4294967296 ∧
      ConfigMap.Uint64 [("k", "4294967296")] "k" 7 = 4294967296 ∧
      ConfigMap.UintList 64 [("k", "4294967296")] "k" "," [] = [4294967296] ∧
      ConfigMap.Uint [("k", "4294967295")] "k" 7 = 4294967295 ∧
      ConfigMap.String [("k", "")] "k" "d" = "" ∧ ConfigMap.String [] "k" "d" = "d" := by
  refine ⟨by decide, by decide, by decide, by decide, by decide, by decide, by decide, by decide⟩

/-- C19: the integer list accessors that parse with `Atoi` are all-or-nothing and
do not check the range of their element type: with the key present, `Int8List` returns
the default when a piece does not parse as an `int`, and otherwise, in order and one
per piece, the parsed integers converted to 8 bits, that is their value modulo `2 ^ 8`
read as a signed byte; so the piece `300` gives 44, where the scalar `Int8` returns
its default.  The same holds for `Int16List`, `Int32List`, `UintList`, `Uint8List`,
`Uint16List` and `Uint32List` at their widths. -/
theorem C19_list_accessors_all_or_nothing_and_truncating (IntSize : Nat) :
    AllOrNothing IntSize (toSigned 8) (ConfigMap.Int8List IntSize) ∧
    AllOrNothing IntSize (toSigned 16) (ConfigMap.Int16List IntSize) ∧
    AllOrNothing IntSize (toSigned 32) (ConfigMap.Int32List IntSize) ∧
    AllOrNothing IntSize (toUnsigned IntSize) (ConfigMap.UintList IntSize) ∧
    AllOrNothing IntSize (toUnsigned 8) (ConfigMap.Uint8List IntSize) ∧
    AllOrNothing IntSize (toUnsigned 16) (ConfigMap.Uint16List IntSize) ∧
    AllOrNothing IntSize (toUnsigned 32) (ConfigMap.Uint32List IntSize) ∧
    (∀ i : Int, -128 ≤ toSigned 8 i ∧ toSigned 8 i < 128 ∧ (toSigned 8 i - i) % 256 = 0) ∧
    (∀ i : Int, -32768 ≤ toSigned 16 i ∧ toSigned 16 i < 32768 ∧
      (toSigned 16 i - i) % 65536 = 0) ∧
    (∀ i : Int, -2147483648 ≤ toSigned 32 i ∧ toSigned 32 i < 2147483648 ∧
      (toSigned 32 i - i) % 4294967296 = 0) ∧
    (∀ (w : Nat) (i : Int), 0 ≤ toUnsigned w i ∧ toUnsigned w i < (2 ^ w : Int) ∧
      (toUnsigned w i - i) % (2 ^ w : Int) = 0) ∧
    toSigned 8 300 = 44 ∧
    (∀ d, ConfigMap.Int8List 64 [("k", "300")] "k" "," d = [44]) ∧
    (∀ d, ConfigMap.Int8List 32 [("k", "300")] "k" "," d = [44]) ∧
    (∀ d, ConfigMap.Int8 64 [("k", "300")] "k" d = d) ∧
    (∀ d, ConfigMap.Int8 32 [("k", "300")] "k" d = d) := by
  refine ⟨allOrNothing_of_loop _ _ _ (fun _ _ _ _ => rfl),
    allOrNothing_of_loop _ _ _ (fun _ _ _ _ => rfl),
    allOrNothing_of_loop _ _ _ (fun _ _ _ _ => rfl),
    allOrNothing_of_loop _ _ _ (fun _ _ _ _ => rfl),
    allOrNothing_of_loop _ _ _ (fun _ _ _ _ => rfl),
    allOrNothing_of_loop _ _ _ (fun _ _ _ _ => rfl),
    allOrNothing_of_loop _ _ _ (fun _ _ _ _ => rfl), ?_, ?_, ?_, toUnsigned_spec, by decide,
    fun _ => rfl, fun _ => rfl, fun _ => rfl, fun _ => rfl⟩
  · intro i
    have hs := toSigned_spec 8 (by decide) i
    have e1 : (2 : Int) ^ (8 - 1) = 128 := by norm_num
    have e2 : (2 : Int) ^ 8 = 256 := by norm_num
    rw [e1, e2] at hs
    exact hs
  · intro i
    have hs := toSigned_spec 16 (by decide) i
    have e1 : (2 : Int) ^ (16 - 1) = 32768 := by norm_num
    have e2 : (2 : Int) ^ 16 = 65536 := by norm_num
    rw [e1, e2] at hs
    exact hs
  · intro i
    have hs := toSigned_spec 32 (by decide) i
    have e1 : (2 : Int) ^ (32 - 1) = 2147483648 := by norm_num
    have e2 : (2 : Int) ^ 32 = 4294967296 := by norm_num
    rw [e1, e2] at hs
    exact hs

/-- Witness for C19: the stored text `300,-1` read with `Int8List`. -/
theorem C19_list_accessors_all_or_nothing_and_truncating_witness :
    ([("k", "300,-1")] : ConfigMap).lookup "k" = some "300,-1" ∧
      (Split "300,-1" ",").map (Atoi 64) = [some 300, some (-1)] ∧
      ConfigMap.Int8List 64 [("k", "300,-1")] "k" "," [9] = [44, -1] :=
  ⟨by decide, by decide, by
    rw [((C19_list_accessors_all_or_nothing_and_truncating 64).1 [("k", "300,-1")] "k" ","
      "300,-1" [9] (by decide)).2 [300, -1] (by decide)]
    decide⟩

end Abesh
